import Mathlib

set_option maxHeartbeats 1000000

/-!
Verification of the persisted-state and compatibility-matching core of the
mender update agent (src/mender-update/context/context.cpp): the provides
merge/commit transaction, glob-based clears filtering, the hand-built
provides JSON codec, the device-type file reader and the artifact
compatibility matcher.
-/

/-- Error kinds mirroring MenderContextErrorCategory together with the other
error sources reachable from the modelled code: json parse/type errors,
AssertOrReturnError / AssertOrReturnUnexpected failures, and an arbitrary
error space for caller-supplied continuations. -/
inductive CtxError where
  | parseError
  | valueError
  | typeError
  | assertError
  | contFail (n : Nat)
deriving DecidableEq, Repr

/-- Decidable equality for results, so concrete runs of the model can be
checked by evaluation. -/
instance {e a : Type} [DecidableEq e] [DecidableEq a] : DecidableEq (Except e a) :=
  fun x y =>
    match x, y with
    | .ok u, .ok v =>
      if h : u = v then isTrue (by rw [h]) else isFalse (fun hq => by cases hq; exact h rfl)
    | .error u, .error v =>
      if h : u = v then isTrue (by rw [h]) else isFalse (fun hq => by cases hq; exact h rfl)
    | .ok _, .error _ => isFalse (fun hq => by cases hq)
    | .error _, .ok _ => isFalse (fun hq => by cases hq)

/-- ProvidesData, a std::map from string to string: association list kept
sorted by key so that iteration order matches the C++ ordered map. -/
abbrev Pmap := List (String × String)

/-- Lookup, mirroring map find and at reads. -/
def plookup (k : String) : Pmap → Option String
  | [] => none
  | kv :: m => if k = kv.1 then some kv.2 else plookup k m

/-- Lexicographic comparison of key characters by code point, the
std::string operator-less ordering the C++ ordered map uses. -/
def strLt : List Char → List Char → Bool
  | [], [] => false
  | [], _ :: _ => true
  | _ :: _, [] => false
  | a :: as, b :: bs =>
    if a.toNat < b.toNat then true
    else if a = b then strLt as bs
    else false

/-- Key order of the C++ ordered map. -/
def keyLt (a b : String) : Bool := strLt a.data b.data

/-- Sorted insert-or-assign, mirroring writes through map subscript. -/
def pinsert (k v : String) : Pmap → Pmap
  | [] => [(k, v)]
  | kv :: m =>
    if keyLt k kv.1 then (k, v) :: kv :: m
    else if k = kv.1 then (k, v) :: m
    else kv :: pinsert k v m

/-- Key removal, mirroring map erase. -/
def perase (k : String) : Pmap → Pmap
  | [] => []
  | kv :: m => if k = kv.1 then m else kv :: perase k m

/-- Strictly increasing keys: the representation invariant of the C++
ordered map. -/
abbrev Psorted (m : Pmap) : Prop := m.Pairwise (fun a b => keyLt a.1 b.1 = true)

/-- Insert every pair of np on top of m, new values winning on collision:
the final loop of FilterProvides (context.cpp lines 278-281). -/
def overlay (np : Pmap) (m : Pmap) : Pmap :=
  np.foldl (fun acc kv => pinsert kv.1 kv.2 acc) m

/-- First-wins choice of two optional values, used to state lookup laws
for overlay. -/
def ofirst (a b : Option String) : Option String :=
  match a with
  | some v => some v
  | none => b

/-- The regex metacharacters escaped by FilterProvides, from the
meta_characters string in context.cpp line 247. -/
def metaChars : List Char :=
  ['.', '^', '$', '+', '(', ')', '[', ']', '\x7b', '\x7d', '|', '?']

/-- The escaping loop of FilterProvides (context.cpp lines 243-259): a glob
star becomes dot-star, every listed metacharacter is backslash-escaped, and
every other character (notably backslash itself) passes through unchanged. -/
def escapeGlob : List Char → List Char
  | [] => []
  | c :: p =>
    (if c = '*' then ['.', '*']
     else if c ∈ metaChars then ['\\', c]
     else [c]) ++ escapeGlob p

/-- One element of a compiled POSIX basic regular expression in the
star-over-single-atom fragment reachable from the escaping above. -/
inductive RAtom where
  | lit (c : Char)
  | dot
  | starLit (c : Char)
  | starDot
deriving DecidableEq, Repr

/-- Star handling of the modelled compiler: a star turns the preceding
single-character atom into its starred form, a leading star is an ordinary
character as POSIX prescribes, and a star right after a star is
conservatively a compile failure. -/
def starAcc : List RAtom → Option (List RAtom)
  | [] => some [RAtom.lit '*']
  | RAtom.lit a :: acc' => some (RAtom.starLit a :: acc')
  | RAtom.dot :: acc' => some (RAtom.starDot :: acc')
  | _ => none

mutual

/-- Main scanning loop of the modelled basic-regex compiler; the accumulator
holds the atoms read so far in reverse. -/
def breGo : List Char → List RAtom → Option (List RAtom)
  | [], acc => some acc.reverse
  | c :: rest, acc =>
    if c = '\\' then breEsc rest acc
    else if c = '[' then none
    else if c = '.' then breGo rest (RAtom.dot :: acc)
    else if c = '*' then
      match starAcc acc with
      | none => none
      | some acc' => breGo rest acc'
    else breGo rest (RAtom.lit c :: acc)

/-- Continuation of the scanning loop after a backslash. -/
def breEsc : List Char → List RAtom → Option (List RAtom)
  | [], _ => none
  | d :: rest, acc =>
    if d = '(' ∨ d = ')' ∨ d = '\x7b' ∨ d = '\x7d' ∨ d.isDigit then none
    else breGo rest (RAtom.lit d :: acc)

end

/-- Modelled from the spec: compilation by the external std::regex engine
invoked with regex_constants::basic (context.cpp lines 261-263).  A
backslash-escaped special character is the corresponding literal, an
unescaped dot matches any character, a star repeats the preceding
single-character atom, and a leading star is an ordinary character, as POSIX
prescribes for basic regular expressions.  An escaped parenthesis or brace
opens a marked subexpression or interval and an escaped digit is a
backreference; a lone such construct fails to compile, and the model
conservatively reports these, bracket expressions, and a star following a
star as compile failures, since no input reachable from the claims below
produces the well-formed versions of those constructs. -/
def compileBRE (s : List Char) : Option (List RAtom) := breGo s []

/-- The suffixes of s reachable by stripping zero or more leading copies of
the character c, longest first: the ways a starred literal can consume
input. -/
def stripRep (c : Char) : List Char → List (List Char)
  | [] => [[]]
  | d :: s => (d :: s) :: (if d = c then stripRep c s else [])

/-- Full-string matching of a compiled pattern: the semantics of
regex_match over the fragment above.  A starred dot matches by handing some
suffix of the input to the rest of the pattern; a starred literal by
stripping leading copies of its character. -/
def ratomsMatch : List RAtom → List Char → Bool
  | [], [] => true
  | [], _ :: _ => false
  | RAtom.lit _ :: _, [] => false
  | RAtom.lit c :: as, d :: s => c = d && ratomsMatch as s
  | RAtom.dot :: _, [] => false
  | RAtom.dot :: as, _ :: s => ratomsMatch as s
  | RAtom.starLit c :: as, s => (stripRep c s).any (fun t => ratomsMatch as t)
  | RAtom.starDot :: as, s => s.tails.any (fun t => ratomsMatch as t)

/-- Glob semantics as the spec words them: a star matches zero or more
arbitrary characters, that is, the rest of the pattern matches some suffix
of the input; every other pattern character matches itself literally, and
the whole string must match. -/
def globMatch : List Char → List Char → Bool
  | [], [] => true
  | [], _ :: _ => false
  | '*' :: p, s => s.tails.any (fun t => globMatch p t)
  | _ :: _, [] => false
  | c :: p, d :: s => c = d && globMatch p s

/-- Compiled form the escaping is intended to reach: a glob star becomes a
dot-star atom and every other character a literal atom. -/
def ratomsOfGlob : List Char → List RAtom
  | [] => []
  | c :: p => (if c = '*' then RAtom.starDot else RAtom.lit c) :: ratomsOfGlob p

/-- A pattern character outside the set that the escaping of FilterProvides
mishandles: backslash is not escaped at all, and escaped parentheses and
braces are grouping or interval constructs in a POSIX basic regex. -/
def safeChar (c : Char) : Bool :=
  !(c == '\\' || c == '(' || c == ')' || c == '\x7b' || c == '\x7d')

/-- The compiled regex of one clears pattern, as FilterProvides builds it. -/
def compiledOf (pat : String) : Option (List RAtom) := compileBRE (escapeGlob pat.data)

/-- Whether a clears pattern, compiled the way FilterProvides compiles it,
fully matches a key; false when the pattern does not compile. -/
def patMatches (pat : String) (k : String) : Bool :=
  match compiledOf pat with
  | none => false
  | some atoms => ratomsMatch atoms k.data

/-- One iteration of the clears loop of FilterProvides (context.cpp lines
242-276): escape the pattern, compile it, return the assertion branch's
error when compilation fails, otherwise drop every key that fully matches. -/
def filterOne (m : Pmap) (pat : String) : Except CtxError Pmap :=
  match compileBRE (escapeGlob pat.data) with
  | none => .error CtxError.assertError
  | some atoms => .ok (m.filter (fun kv => ! ratomsMatch atoms kv.1.data))

/-- The whole clears loop of FilterProvides, applied pattern by pattern in
caller order. -/
def pureFilter (clears : List String) (m : Pmap) : Except CtxError Pmap :=
  clears.foldlM filterOne m

/-- FilterProvides (context.cpp lines 237-284): filter by every clears
pattern, then add the new provides on top. -/
def filterProvides (new_provides : Pmap) (clears : List String) (to_modify : Pmap) :
    Except CtxError Pmap :=
  match pureFilter clears to_modify with
  | .error e => .error e
  | .ok m => .ok (overlay new_provides m)

/-- Modelled from the spec: json EscapeString for embedding a value in a
JSON string, escaping the quote, the backslash and the common control
characters; exotic control characters outside this fragment are passed
through and never appear in the inputs considered below. -/
def escapeJson : List Char → List Char
  | [] => []
  | c :: s =>
    (if c = '"' then ['\\', '"']
     else if c = '\\' then ['\\', '\\']
     else if c = '\n' then ['\\', 'n']
     else if c = '\r' then ['\\', 'r']
     else if c = '\t' then ['\\', 't']
     else [c]) ++ escapeJson s

/-- Modelled from the spec: the decoding of one JSON string escape. -/
def unescChar (e : Char) : Option Char :=
  if e = '"' then some '"'
  else if e = '\\' then some '\\'
  else if e = '/' then some '/'
  else if e = 'n' then some '\n'
  else if e = 'r' then some '\r'
  else if e = 't' then some '\t'
  else none

mutual

/-- Modelled from the spec: the external JSON parser's string scanner,
positioned just after an opening quote; returns the decoded content and the
remainder after the closing quote.  Raw control characters are rejected and
the standard single-character escapes are decoded. -/
def parseStr : List Char → Option (List Char × List Char)
  | [] => none
  | c :: rest =>
    if c = '"' then some ([], rest)
    else if c = '\\' then parseEsc rest
    else if c.toNat < 32 then none
    else
      match parseStr rest with
      | none => none
      | some (cs, r) => some (c :: cs, r)

/-- Continuation of the string scanner after a backslash. -/
def parseEsc : List Char → Option (List Char × List Char)
  | [] => none
  | e :: rest =>
    match unescChar e with
    | none => none
    | some d =>
      match parseStr rest with
      | none => none
      | some (cs, r) => some (d :: cs, r)

end

/-- Outcome of reading one object member from the head of the input:
failure, a final member right before the closing brace that ends the input,
or a member followed by a comma and the remaining members. -/
inductive MemStep where
  | fail : MemStep
  | done (k v : String) : MemStep
  | more (k v : String) (r : List Char) : MemStep
deriving DecidableEq

/-- The member tail after the value string: a comma continues the loop and
a closing brace that ends the input finishes the object. -/
def memVal (k v : List Char) : List Char → MemStep
  | [] => .fail
  | c :: r4 =>
    if c = ',' then .more (String.mk k) (String.mk v) r4
    else if c = '\x7d' ∧ r4 = [] then .done (String.mk k) (String.mk v)
    else .fail

/-- The member tail after the key string: a colon, a quote, then the value
string, every member value being a string as the all-of string check in
LoadProvides demands. -/
def memColon (k : List Char) : List Char → MemStep
  | c1 :: c2 :: r2 =>
    if c1 = ':' ∧ c2 = '"' then
      match parseStr r2 with
      | none => .fail
      | some vr => memVal k vr.1 vr.2
    else .fail
  | _ => .fail

/-- Reading one quoted key-colon-value member from the head of the input. -/
def memStep : List Char → MemStep
  | [] => .fail
  | c :: rest =>
    if c = '"' then
      match parseStr rest with
      | none => .fail
      | some kr => memColon kr.1 kr.2
    else .fail

/-- Modelled from the spec: the external JSON parser's object-member loop,
reading key-colon-value string pairs separated by commas up to the closing
brace, which must end the input.  Members accumulate through map insertion,
mirroring the parser's ordered children map. -/
def parseMembers : Nat → List Char → Pmap → Option Pmap
  | 0, _, _ => none
  | fuel + 1, l, acc =>
    match memStep l with
    | .fail => none
    | .done k v => some (pinsert k v acc)
    | .more k v r4 => parseMembers fuel r4 (pinsert k v acc)

/-- Modelled from the spec: json Load of the stored provides blob followed
by the children enumeration and the all-strings check of LoadProvides
(context.cpp lines 170-188); accepts exactly one JSON object whose members
are all strings.  The member loop consumes at least one character per
member, so fuel equal to the input length never runs out. -/
def jsonLoadObj (s : String) : Except CtxError Pmap :=
  match s.data with
  | '\x7b' :: rest =>
    match rest with
    | ['\x7d'] => .ok []
    | _ =>
      match parseMembers rest.length rest [] with
      | none => .error CtxError.parseError
      | some m => .ok m
  | _ => .error CtxError.parseError

/-- Persisted record key, context.cpp line 50. -/
def artifact_name_key : String := "artifact-name"

/-- Persisted record key, context.cpp line 51. -/
def artifact_group_key : String := "artifact-group"

/-- Persisted record key, context.cpp line 52. -/
def artifact_provides_key : String := "artifact-provides"

/-- The durable key-value store contents (string keys to string values). -/
abbrev Store := Pmap

/-- MenderContext LoadProvides on an open transaction (context.cpp lines
140-191): read the three records with missing-ok semantics, seed the map
with the non-empty reserved records, then overlay the decoded blob. -/
def loadProvides (s : Store) : Except CtxError Pmap :=
  let an := (plookup artifact_name_key s).getD ""
  let ag := (plookup artifact_group_key s).getD ""
  let aps := (plookup artifact_provides_key s).getD ""
  let ret0 : Pmap := []
  let ret1 := if an = "" then ret0 else pinsert "artifact_name" an ret0
  let ret2 := if ag = "" then ret1 else pinsert "artifact_group" ag ret1
  if aps = "" then .ok ret2
  else
    match jsonLoadObj aps with
    | .error e => .error e
    | .ok children => .ok (overlay children ret2)

/-- The four-way merge branch structure of CommitArtifactData (context.cpp
lines 300-317). -/
def mergedMap (existing : Pmap) (np : Option Pmap) (cp : Option (List String)) :
    Except CtxError Pmap :=
  match np, cp with
  | none, none => .ok []
  | none, some cs => filterProvides [] cs existing
  | some n, none => .ok n
  | some n, some cs => filterProvides n cs existing

/-- The reserved-key overwrite from the artifact name and group arguments
(context.cpp lines 322-327). -/
def applyArgs (an ag : String) (m : Pmap) : Pmap :=
  let m1 := if an = "" then m else pinsert "artifact_name" an m
  if ag = "" then m1 else pinsert "artifact_group" ag m1

/-- One iteration of the blob-building loop of CommitArtifactData
(context.cpp lines 330-335): append the raw key and the escaped value when
the key is not reserved. -/
def encStep (acc : List Char) (kv : String × String) : List Char :=
  if kv.1 ≠ "artifact_name" ∧ kv.1 ≠ "artifact_group" then
    acc ++ '"' :: kv.1.data ++ '"' :: ':' :: '"' :: escapeJson kv.2.data ++ ['"', ',']
  else acc

/-- The hand-built provides JSON blob (context.cpp lines 329-344): join the
non-reserved pairs with raw keys and escaped values, then turn the trailing
comma into the closing brace, or produce the empty string when no
non-reserved key remains. -/
def encodeProvidesL (m : Pmap) : List Char :=
  let body := m.foldl encStep ['\x7b']
  if body = ['\x7b'] then [] else body.dropLast ++ ['\x7d']

/-- String form of the encoded provides blob. -/
def encodeProvides (m : Pmap) : String := String.mk (encodeProvidesL m)

/-- The body of the write transaction of CommitArtifactData (context.cpp
lines 292-377): load, merge, overwrite reserved keys, encode, write or
remove the records, then run the caller-supplied continuation inside the
same transaction. -/
def commitBody (s : Store) (an ag : String) (np : Option Pmap)
    (cp : Option (List String)) (f : Store → Except CtxError Store) :
    Except CtxError Store :=
  match loadProvides s with
  | .error e => .error e
  | .ok existing =>
    match mergedMap existing np cp with
    | .error e => .error e
    | .ok m0 =>
      let m := applyArgs an ag m0
      let blob := encodeProvides m
      let nameVal := (plookup "artifact_name" m).getD ""
      if nameVal = "" then .error CtxError.assertError
      else
        let s1 := pinsert artifact_name_key nameVal s
        let gVal := (plookup "artifact_group" m).getD ""
        let s2 := if gVal = "" then perase artifact_group_key s1
                  else pinsert artifact_group_key gVal s1
        let s3 := if blob = "" then s2 else pinsert artifact_provides_key blob s2
        f s3

/-- MenderContext CommitArtifactData (context.cpp lines 286-378): run the
body in one write transaction of the external store, whose contract makes
the writes visible all together on success and discards them all on error. -/
def commitArtifactData (s : Store) (an ag : String) (np : Option Pmap)
    (cp : Option (List String)) (f : Store → Except CtxError Store) :
    Store × Option CtxError :=
  match commitBody s an ag np cp f with
  | .ok s2 => (s2, none)
  | .error e => (s, some e)

/-- The getline model: characters up to the newline or the end of input,
the remainder, and whether the eof bit was set because the read ran out of
input before finding a terminator. -/
def getlineM (s : List Char) : List Char × List Char × Bool :=
  let line := s.takeWhile (fun c => c ≠ '\n')
  match s.dropWhile (fun c => c ≠ '\n') with
  | [] => (line, [], true)
  | _ :: r => (line, r, false)

/-- MenderContext GetDeviceType (context.cpp lines 193-235) applied to the
contents of the device type file: the first line must start with the
device_type= prefix and the remainder of that line is returned verbatim; a
second read is attempted only when the first did not exhaust the file, and
must produce an empty line that exhausts it. -/
def getDeviceType (content : String) : Except CtxError String :=
  let r1 := getlineM content.data
  if r1.1.take 12 ≠ "device_type=".data then .error CtxError.parseError
  else
    let ret := String.mk (r1.1.drop 12)
    if r1.2.2 then .ok ret
    else
      let r2 := getlineM r1.2.1
      if r2.1 ≠ [] ∨ r2.2.2 = false then .error CtxError.valueError
      else .ok ret

/-- HeaderInfo depends, from the artifact header parser's output consumed by
ArtifactMatchesContext. -/
structure HeaderDepends where
  device_type : List String
  artifact_name : Option (List String)
  artifact_group : Option (List String)

/-- The type-info depends loop of ArtifactMatchesContext (context.cpp lines
439-451): every key must exist in provides with an equal value. -/
def checkTIDepends : Pmap → Pmap → Bool
  | [], _ => true
  | kv :: rest, provides =>
    match plookup kv.1 provides with
    | none => false
    | some v => if v = kv.2 then checkTIDepends rest provides else false

/-- The type-info tail of ArtifactMatchesContext (context.cpp lines
434-453). -/
def matchTIPart (provides : Pmap) (ti : Option Pmap) : Except CtxError Bool :=
  match ti with
  | none => .ok true
  | some tis => .ok (checkTIDepends tis provides)

/-- The artifact-group conditions of ArtifactMatchesContext (context.cpp
lines 420-432). -/
def matchGroupPart (provides : Pmap) (dep : HeaderDepends) (ti : Option Pmap) :
    Except CtxError Bool :=
  match dep.artifact_group with
  | none => matchTIPart provides ti
  | some l =>
    if l.length = 0 then .error CtxError.assertError
    else if (plookup "artifact_group" provides).isNone then .ok false
    else if ! l.contains ((plookup "artifact_group" provides).getD "") then .ok false
    else matchTIPart provides ti

/-- ArtifactMatchesContext (context.cpp lines 394-454). -/
def artifactMatchesContext (provides : Pmap) (device_type : String)
    (dep : HeaderDepends) (ti : Option Pmap) : Except CtxError Bool :=
  if (plookup "artifact_name" provides).isNone then .error CtxError.valueError
  else if dep.device_type.length = 0 then .error CtxError.assertError
  else if ! dep.device_type.contains device_type then .ok false
  else
    match dep.artifact_name with
    | none => matchGroupPart provides dep ti
    | some l =>
      if l.length = 0 then .error CtxError.assertError
      else if ! l.contains ((plookup "artifact_name" provides).getD "") then .ok false
      else matchGroupPart provides dep ti

theorem strLt_irrefl : ∀ l, strLt l l = false := by
  intro l
  induction l with
  | nil => rfl
  | cons a as ih => simp [strLt, ih]

theorem strLt_trans : ∀ a b c, strLt a b = true → strLt b c = true → strLt a c = true := by
  intro a
  induction a with
  | nil =>
    intro b c hab hbc
    cases b with
    | nil => simp [strLt] at hab
    | cons y bs =>
      cases c with
      | nil => simp [strLt] at hbc
      | cons z cs => simp [strLt]
  | cons x as ih =>
    intro b c hab hbc
    cases b with
    | nil => simp [strLt] at hab
    | cons y bs =>
      cases c with
      | nil => simp [strLt] at hbc
      | cons z cs =>
        simp only [strLt] at hab hbc ⊢
        by_cases h1 : x.toNat < y.toNat
        · by_cases h2 : y.toNat < z.toNat
          · have h3 : x.toNat < z.toNat := Nat.lt_trans h1 h2
            simp [h3]
          · rw [if_neg h2] at hbc
            by_cases h3 : y = z
            · have h4 : x.toNat < z.toNat := by rw [← h3]; exact h1
              simp [h4]
            · rw [if_neg h3] at hbc; cases hbc
        · rw [if_neg h1] at hab
          by_cases h3 : x = y
          · rw [if_pos h3] at hab
            by_cases h2 : y.toNat < z.toNat
            · have h4 : x.toNat < z.toNat := by rw [h3]; exact h2
              simp [h4]
            · rw [if_neg h2] at hbc
              by_cases h4 : y = z
              · rw [if_pos h4] at hbc
                have hxz : x = z := h3.trans h4
                have h5 : ¬ x.toNat < z.toNat := by
                  rw [hxz]
                  exact Nat.lt_irrefl _
                rw [if_neg h5, if_pos hxz]
                exact ih bs cs hab hbc
              · rw [if_neg h4] at hbc; cases hbc
          · rw [if_neg h3] at hab; cases hab

theorem char_toNat_inj {x y : Char} (h : x.toNat = y.toNat) : x = y :=
  Char.ext (UInt32.ext h)

theorem strLt_cases : ∀ a b, strLt a b = true ∨ a = b ∨ strLt b a = true := by
  intro a
  induction a with
  | nil =>
    intro b
    cases b with
    | nil => right; left; rfl
    | cons y bs => left; rfl
  | cons x as ih =>
    intro b
    cases b with
    | nil => right; right; rfl
    | cons y bs =>
      rcases Nat.lt_trichotomy x.toNat y.toNat with h | h | h
      · left; simp [strLt, h]
      · have hxy : x = y := char_toNat_inj h
        rcases ih bs with h2 | h2 | h2
        · left
          simp [strLt, hxy, Nat.lt_irrefl, h2]
        · right; left; rw [hxy, h2]
        · right; right
          simp [strLt, hxy, Nat.lt_irrefl, h2]
      · right; right
        simp [strLt, h]

theorem keyLt_trans {a b c : String} (h1 : keyLt a b = true) (h2 : keyLt b c = true) :
    keyLt a c = true := strLt_trans _ _ _ h1 h2

theorem keyLt_irrefl (a : String) : ¬ keyLt a a = true := by
  simp [keyLt, strLt_irrefl]

theorem keyLt_ne {a b : String} (h : keyLt a b = true) : a ≠ b := by
  intro hq
  subst hq
  exact keyLt_irrefl a h

theorem keyLt_cases (a b : String) : keyLt a b = true ∨ a = b ∨ keyLt b a = true := by
  rcases strLt_cases a.data b.data with h | h | h
  · left; exact h
  · right; left
    cases a
    cases b
    simp only at h
    rw [h]
  · right; right; exact h

theorem mem_pinsert (a : String × String) (k v : String) (m : Pmap)
    (h : a ∈ pinsert k v m) : a = (k, v) ∨ a ∈ m := by
  induction m with
  | nil => simp [pinsert] at h; simp [h]
  | cons kv m ih =>
    simp only [pinsert] at h
    split at h
    · rcases List.mem_cons.mp h with heq | h'
      · left; exact heq
      · right; exact h'
    · split at h
      · rcases List.mem_cons.mp h with heq | h'
        · left; exact heq
        · right; exact List.mem_cons_of_mem _ h'
      · rcases List.mem_cons.mp h with heq | h'
        · right; rw [heq]; exact List.mem_cons_self _ _
        · rcases ih h' with heq | hmem
          · left; exact heq
          · right; exact List.mem_cons_of_mem _ hmem

theorem mem_perase (a : String × String) (k : String) (m : Pmap)
    (h : a ∈ perase k m) : a ∈ m := by
  induction m with
  | nil => simp [perase] at h
  | cons kv m ih =>
    simp only [perase] at h
    split at h
    · exact List.mem_cons_of_mem _ h
    · rcases List.mem_cons.mp h with heq | h'
      · rw [heq]; exact List.mem_cons_self _ _
      · exact List.mem_cons_of_mem _ (ih h')

theorem plookup_pinsert_self (k v : String) (m : Pmap) :
    plookup k (pinsert k v m) = some v := by
  induction m with
  | nil => simp [pinsert, plookup]
  | cons kv m ih =>
    simp only [pinsert]
    split
    · simp [plookup]
    · split
      · simp [plookup]
      · rename_i h1 h2
        simp [plookup, h2, ih]

theorem plookup_pinsert_ne (k k' v : String) (m : Pmap) (h : k ≠ k') :
    plookup k (pinsert k' v m) = plookup k m := by
  induction m with
  | nil => simp [pinsert, plookup, h]
  | cons kv m ih =>
    simp only [pinsert]
    split
    · simp [plookup, h]
    · split
      · rename_i h1 h2
        simp only [plookup]
        rw [if_neg h, ← h2, if_neg h]
      · simp only [plookup, ih]

theorem plookup_eq_none_iff (k : String) (m : Pmap) :
    plookup k m = none ↔ ∀ kv ∈ m, k ≠ kv.1 := by
  induction m with
  | nil => simp [plookup]
  | cons kv m ih =>
    constructor
    · intro hnone kv' hmem
      simp only [plookup] at hnone
      split at hnone
      · cases hnone
      · rename_i hne
        rcases List.mem_cons.mp hmem with heq | hmem'
        · rw [heq]; exact hne
        · exact (ih.mp hnone) kv' hmem'
    · intro hall
      simp only [plookup]
      rw [if_neg (hall kv (List.mem_cons_self _ _))]
      exact ih.mpr (fun kv' hm => hall kv' (List.mem_cons_of_mem _ hm))

theorem psorted_pinsert (k v : String) (m : Pmap) (h : Psorted m) :
    Psorted (pinsert k v m) := by
  induction m with
  | nil => simp [pinsert]
  | cons kv m ih =>
    obtain ⟨hall, hm⟩ := List.pairwise_cons.mp h
    simp only [pinsert]
    split
    · rename_i hlt
      refine List.pairwise_cons.mpr ⟨?_, ?_⟩
      · intro a ha
        rcases List.mem_cons.mp ha with heq | ha'
        · rw [heq]; exact hlt
        · exact keyLt_trans hlt (hall a ha')
      · exact List.pairwise_cons.mpr ⟨hall, hm⟩
    · split
      · rename_i hlt heq
        refine List.pairwise_cons.mpr ⟨?_, hm⟩
        intro a ha
        rw [heq]
        exact hall a ha
      · rename_i hlt heq
        refine List.pairwise_cons.mpr ⟨?_, ih hm⟩
        intro a ha
        rcases mem_pinsert a k v m ha with heq2 | ha'
        · rw [heq2]
          rcases keyLt_cases k kv.1 with hq | hq | hq
          · exact absurd hq hlt
          · exact absurd hq heq
          · exact hq
        · exact hall a ha'

theorem plookup_perase_ne (k k' : String) (m : Pmap) (h : k ≠ k') :
    plookup k (perase k' m) = plookup k m := by
  induction m with
  | nil => simp [perase]
  | cons kv m ih =>
    simp only [perase]
    split
    · rename_i heq
      simp only [plookup]
      rw [if_neg]
      rw [← heq]
      exact h
    · simp only [plookup, ih]

theorem plookup_perase_self (k : String) (m : Pmap) (h : Psorted m) :
    plookup k (perase k m) = none := by
  induction m with
  | nil => simp [perase, plookup]
  | cons kv m ih =>
    obtain ⟨hall, hm⟩ := List.pairwise_cons.mp h
    simp only [perase]
    split
    · rename_i heq
      rw [plookup_eq_none_iff]
      intro kv' hm' hk
      have := hall kv' hm'
      rw [← heq, ← hk] at this
      exact keyLt_irrefl _ this
    · rename_i hne
      simp only [plookup, if_neg hne]
      exact ih hm

theorem psorted_perase (k : String) (m : Pmap) (h : Psorted m) :
    Psorted (perase k m) := by
  induction m with
  | nil => simp [perase]
  | cons kv m ih =>
    obtain ⟨hall, hm⟩ := List.pairwise_cons.mp h
    simp only [perase]
    split
    · exact hm
    · refine List.pairwise_cons.mpr ⟨?_, ih hm⟩
      intro a ha
      exact hall a (mem_perase a k m ha)

theorem pinsert_eq_self_of_lookup (k v : String) (m : Pmap) (hs : Psorted m)
    (hv : plookup k m = some v) : pinsert k v m = m := by
  induction m with
  | nil => simp [plookup] at hv
  | cons kv m ih =>
    obtain ⟨hall, hm⟩ := List.pairwise_cons.mp hs
    simp only [plookup] at hv
    simp only [pinsert]
    split
    · rename_i hlt
      split at hv
      · rename_i heq
        rw [heq] at hlt
        exact absurd hlt (keyLt_irrefl _)
      · exfalso
        have hmem : ∃ kv' ∈ m, k = kv'.1 := by
          by_contra hq
          push_neg at hq
          rw [(plookup_eq_none_iff k m).mpr hq] at hv
          cases hv
        obtain ⟨kv', hm', hk⟩ := hmem
        have := hall kv' hm'
        rw [← hk] at this
        exact absurd (keyLt_trans hlt this) (keyLt_irrefl _)
    · split
      · rename_i hlt heq
        rw [if_pos heq] at hv
        have hv2 := Option.some.inj hv
        rw [heq, ← hv2, Prod.mk.eta]
      · rename_i hlt heq
        rw [if_neg heq] at hv
        rw [ih hm hv]

theorem perase_eq_self_of_lookup_none (k : String) (m : Pmap)
    (hv : plookup k m = none) : perase k m = m := by
  induction m with
  | nil => simp [perase]
  | cons kv m ih =>
    simp only [plookup] at hv
    split at hv
    · cases hv
    · rename_i hne
      simp only [perase, if_neg hne]
      rw [ih hv]

theorem pext : ∀ (a b : Pmap), Psorted a → Psorted b →
    (∀ k, plookup k a = plookup k b) → a = b := by
  intro a
  induction a with
  | nil =>
    intro b ha hb h
    cases b with
    | nil => rfl
    | cons kv b =>
      have := h kv.1
      simp [plookup] at this
  | cons kv a ih =>
    intro b ha hb h
    cases b with
    | nil =>
      have := h kv.1
      simp [plookup] at this
    | cons kv' b =>
      obtain ⟨halla, ha'⟩ := List.pairwise_cons.mp ha
      obtain ⟨hallb, hb'⟩ := List.pairwise_cons.mp hb
      have hk : kv.1 = kv'.1 := by
        by_contra hne
        have h1 := h kv.1
        have h2 := h kv'.1
        simp only [plookup, if_pos rfl] at h1 h2
        rw [if_neg hne] at h1
        rw [if_neg (fun hq => hne hq.symm)] at h2
        have hm1 : ∃ x ∈ b, kv.1 = x.1 := by
          by_contra hq
          push_neg at hq
          rw [(plookup_eq_none_iff kv.1 b).mpr hq] at h1
          cases h1
        have hm2 : ∃ x ∈ a, kv'.1 = x.1 := by
          by_contra hq
          push_neg at hq
          rw [(plookup_eq_none_iff kv'.1 a).mpr hq] at h2
          cases h2
        obtain ⟨x1, hx1, he1⟩ := hm1
        obtain ⟨x2, hx2, he2⟩ := hm2
        have l1 := hallb x1 hx1
        have l2 := halla x2 hx2
        rw [← he1] at l1
        rw [← he2] at l2
        exact absurd (keyLt_trans l1 l2) (keyLt_irrefl _)
      have hv : kv.2 = kv'.2 := by
        have h1 := h kv.1
        simp only [plookup, if_pos rfl] at h1
        rw [hk] at h1
        simp only [if_pos rfl] at h1
        exact Option.some.inj h1
      have htail : ∀ k, plookup k a = plookup k b := by
        intro k
        by_cases hke : k = kv.1
        · have hna : plookup k a = none := (plookup_eq_none_iff k a).mpr (by
            intro x hx
            rw [hke]
            exact keyLt_ne (halla x hx))
          have hnb : plookup k b = none := (plookup_eq_none_iff k b).mpr (by
            intro x hx
            rw [hke, hk]
            exact keyLt_ne (hallb x hx))
          rw [hna, hnb]
        · have := h k
          simp only [plookup, if_neg hke] at this
          rw [hk] at hke
          rw [if_neg hke] at this
          exact this
      have hkv : kv = kv' := Prod.ext hk hv
      rw [hkv, ih b ha' hb' htail]

theorem overlay_nil (m : Pmap) : overlay [] m = m := rfl

theorem overlay_cons (kv : String × String) (np m : Pmap) :
    overlay (kv :: np) m = overlay np (pinsert kv.1 kv.2 m) := rfl

theorem psorted_overlay (np : Pmap) : ∀ m, Psorted m → Psorted (overlay np m) := by
  induction np with
  | nil => intro m h; exact h
  | cons kv np ih =>
    intro m h
    rw [overlay_cons]
    exact ih _ (psorted_pinsert _ _ _ h)

theorem plookup_overlay (k : String) (np : Pmap) (h : Psorted np) :
    ∀ m, plookup k (overlay np m) = ofirst (plookup k np) (plookup k m) := by
  induction np with
  | nil => intro m; simp [overlay_nil, plookup, ofirst]
  | cons kv np ih =>
    intro m
    obtain ⟨hall, hnp⟩ := List.pairwise_cons.mp h
    rw [overlay_cons, ih hnp _]
    by_cases hk : k = kv.1
    · subst hk
      have hnone : plookup kv.1 np = none :=
        (plookup_eq_none_iff _ _).mpr (fun x hx => keyLt_ne (hall x hx))
      rw [hnone, plookup_pinsert_self]
      simp [plookup, ofirst]
    · rw [plookup_pinsert_ne _ _ _ _ hk]
      simp only [plookup, if_neg hk]

theorem psorted_filter (p : String × String → Bool) (m : Pmap) (h : Psorted m) :
    Psorted (m.filter p) := List.Pairwise.filter p h

theorem plookup_filter (q : String → Bool) (k : String) (m : Pmap) :
    plookup k (m.filter (fun kv => q kv.1)) = if q k then plookup k m else none := by
  induction m with
  | nil => simp [plookup]
  | cons kv m ih =>
    simp only [List.filter_cons]
    by_cases hk : k = kv.1
    · subst hk
      by_cases hq : q kv.1
      · simp [hq, plookup]
      · simp [hq, plookup, ih]
    · by_cases hq : q kv.1
      · rw [if_pos hq]
        simp only [plookup, if_neg hk]
        exact ih
      · rw [if_neg hq]
        rw [ih]
        simp only [plookup, if_neg hk]

theorem compiledOf_isSome_filterOne (m : Pmap) (pat : String)
    (h : (compiledOf pat).isSome) :
    filterOne m pat = .ok (m.filter (fun kv => ! patMatches pat kv.1)) := by
  unfold filterOne patMatches
  unfold compiledOf at h ⊢
  match hc : compileBRE (escapeGlob pat.data) with
  | none => rw [hc] at h; cases h
  | some atoms => simp

theorem compiledOf_none_filterOne (m : Pmap) (pat : String)
    (h : compiledOf pat = none) :
    filterOne m pat = .error CtxError.assertError := by
  unfold filterOne
  unfold compiledOf at h
  rw [h]

theorem pureFilter_ok (cs : List String) (h : ∀ pat ∈ cs, (compiledOf pat).isSome) :
    ∀ m, pureFilter cs m =
      .ok (m.filter (fun kv => ! cs.any (fun pat => patMatches pat kv.1))) := by
  induction cs with
  | nil =>
    intro m
    have h0 : pureFilter [] m = Except.ok m := rfl
    rw [h0]
    simp
  | cons pat cs ih =>
    intro m
    have h1 : (compiledOf pat).isSome := h pat (List.mem_cons_self _ _)
    have h2 : ∀ p ∈ cs, (compiledOf p).isSome :=
      fun p hp => h p (List.mem_cons_of_mem _ hp)
    have : pureFilter (pat :: cs) m =
        pureFilter cs (m.filter (fun kv => ! patMatches pat kv.1)) := by
      unfold pureFilter
      rw [List.foldlM_cons, compiledOf_isSome_filterOne m pat h1]
      rfl
    rw [this, ih h2 _, List.filter_filter]
    have hcongr : ∀ kv : String × String, kv ∈ m →
        ((!cs.any fun p => patMatches p kv.1) && !patMatches pat kv.1)
          = (!(pat :: cs).any fun p => patMatches p kv.1) := by
      intro kv hm
      simp only [List.any_cons, Bool.not_or]
      rw [Bool.and_comm]
    rw [List.filter_congr hcongr]

theorem pureFilter_err (cs : List String) (pat : String) (hmem : pat ∈ cs)
    (hnone : compiledOf pat = none) :
    ∀ m, pureFilter cs m = .error CtxError.assertError := by
  induction cs with
  | nil => cases hmem
  | cons p cs ih =>
    intro m
    rcases List.mem_cons.mp hmem with heq | hmem'
    · subst heq
      unfold pureFilter
      rw [List.foldlM_cons, compiledOf_none_filterOne m pat hnone]
      rfl
    · unfold pureFilter
      rw [List.foldlM_cons]
      match hf : filterOne m p with
      | .error e =>
        have : e = CtxError.assertError := by
          unfold filterOne at hf
          split at hf
          · exact (Except.error.inj hf).symm
          · cases hf
        rw [this]
        rfl
      | .ok m' =>
        have := ih hmem' m'
        unfold pureFilter at this
        simpa using this

theorem breGo_escapeGlob :
    ∀ (p : List Char), (∀ c ∈ p, safeChar c = true) →
      ∀ acc, breGo (escapeGlob p) acc = some (acc.reverse ++ ratomsOfGlob p) := by
  intro p
  induction p with
  | nil => intro hs acc; simp [escapeGlob, breGo, ratomsOfGlob]
  | cons c p ih =>
    intro hs acc
    have hc : safeChar c = true := hs c (List.mem_cons_self _ _)
    have hp : ∀ c ∈ p, safeChar c = true := fun x hmem => hs x (List.mem_cons_of_mem _ hmem)
    by_cases hstar : c = '*'
    · subst hstar
      have he : escapeGlob ('*' :: p) = '.' :: '*' :: escapeGlob p := by
        simp [escapeGlob]
      have hstep : breGo ('.' :: '*' :: escapeGlob p) acc
          = breGo (escapeGlob p) (RAtom.starDot :: acc) := by
        simp [breGo, starAcc]
      rw [he, hstep, ih hp _]
      simp [ratomsOfGlob]
    · by_cases hmeta : c ∈ metaChars
      · have he : escapeGlob (c :: p) = '\\' :: c :: escapeGlob p := by
          simp [escapeGlob, hstar, hmeta]
        have hcond : ¬(c = '(' ∨ c = ')' ∨ c = '\x7b' ∨ c = '\x7d' ∨ c.isDigit = true) := by
          simp only [metaChars, List.mem_cons, List.mem_singleton] at hmeta
          rcases hmeta with rfl|rfl|rfl|rfl|rfl|rfl|rfl|rfl|rfl|rfl|rfl|rfl|hfalse
          · decide
          · decide
          · decide
          · decide
          · simp [safeChar] at hc
          · simp [safeChar] at hc
          · decide
          · decide
          · simp [safeChar] at hc
          · simp [safeChar] at hc
          · decide
          · decide
          · simp at hfalse
        have hstep : breGo ('\\' :: c :: escapeGlob p) acc
            = breGo (escapeGlob p) (RAtom.lit c :: acc) := by
          simp [breGo, breEsc, hcond]
        rw [he, hstep, ih hp _]
        simp [ratomsOfGlob, hstar]
      · have he : escapeGlob (c :: p) = c :: escapeGlob p := by
          simp [escapeGlob, hstar, hmeta]
        have hbs : ¬(c = '\\') := by
          intro hq; subst hq; simp [safeChar] at hc
        have hlb : ¬(c = '[') := by
          intro hq; subst hq; simp [metaChars] at hmeta
        have hdot : ¬(c = '.') := by
          intro hq; subst hq; simp [metaChars] at hmeta
        have hstep : breGo (c :: escapeGlob p) acc
            = breGo (escapeGlob p) (RAtom.lit c :: acc) := by
          simp [breGo, hbs, hlb, hdot, hstar]
        rw [he, hstep, ih hp _]
        simp [ratomsOfGlob, hstar]

theorem ratomsMatch_ofGlob : ∀ (p s : List Char),
    ratomsMatch (ratomsOfGlob p) s = globMatch p s := by
  intro p
  induction p with
  | nil =>
    intro s
    cases s with
    | nil => rfl
    | cons d s => rfl
  | cons c p ih =>
    intro s
    by_cases hstar : c = '*'
    · subst hstar
      have hg : ratomsOfGlob ('*' :: p) = RAtom.starDot :: ratomsOfGlob p := by
        simp [ratomsOfGlob]
      rw [hg]
      have hl : ratomsMatch (RAtom.starDot :: ratomsOfGlob p) s
          = s.tails.any (fun t => ratomsMatch (ratomsOfGlob p) t) := rfl
      have hr : globMatch ('*' :: p) s = s.tails.any (fun t => globMatch p t) := by
        simp [globMatch]
      rw [hl, hr]
      have hcong : ∀ (l : List (List Char)),
          l.any (fun t => ratomsMatch (ratomsOfGlob p) t)
            = l.any (fun t => globMatch p t) := by
        intro l
        induction l with
        | nil => rfl
        | cons t l ihl => simp only [List.any_cons, ih t, ihl]
      exact hcong _
    · have hg : ratomsOfGlob (c :: p) = RAtom.lit c :: ratomsOfGlob p := by
        simp [ratomsOfGlob, hstar]
      rw [hg]
      cases s with
      | nil =>
        have hl : ratomsMatch (RAtom.lit c :: ratomsOfGlob p) [] = false := rfl
        have hr : globMatch (c :: p) [] = false := by
          simp [globMatch, hstar]
        rw [hl, hr]
      | cons d s =>
        have hl : ratomsMatch (RAtom.lit c :: ratomsOfGlob p) (d :: s)
            = (decide (c = d) && ratomsMatch (ratomsOfGlob p) s) := rfl
        have hr : globMatch (c :: p) (d :: s) = (decide (c = d) && globMatch p s) := by
          simp [globMatch, hstar]
        rw [hl, hr, ih]

theorem compiledOf_safe (pat : String) (h : ∀ c ∈ pat.data, safeChar c = true) :
    compiledOf pat = some (ratomsOfGlob pat.data) := by
  unfold compiledOf compileBRE
  rw [breGo_escapeGlob pat.data h []]
  rfl

theorem filterOne_safe (pat : String) (m : Pmap)
    (h : ∀ c ∈ pat.data, safeChar c = true) :
    filterOne m pat = .ok (m.filter (fun kv => ! globMatch pat.data kv.1.data)) := by
  have hc := compiledOf_safe pat h
  unfold compiledOf at hc
  unfold filterOne
  rw [hc]
  have hcongr : ∀ kv : String × String, kv ∈ m →
      (! ratomsMatch (ratomsOfGlob pat.data) kv.1.data)
        = (! globMatch pat.data kv.1.data) := by
    intro kv hm
    rw [ratomsMatch_ofGlob]
  exact congrArg Except.ok (List.filter_congr hcongr)

theorem globMatch_star_all : ∀ s, globMatch ['*'] s = true := by
  intro s
  have h : globMatch ('*' :: []) s = s.tails.any (fun t => globMatch [] t) := by
    simp [globMatch]
  rw [h]
  apply List.any_eq_true.mpr
  refine ⟨[], ?_, rfl⟩
  simp [List.mem_tails]

theorem globMatch_no_star (p : List Char) (h : '*' ∉ p) :
    ∀ s, (globMatch p s = true ↔ p = s) := by
  induction p with
  | nil =>
    intro s
    cases s with
    | nil => simp [globMatch]
    | cons d s => simp [globMatch]
  | cons c p ih =>
    intro s
    have hc : ¬(c = '*') := by
      intro hq
      apply h
      rw [hq]
      exact List.mem_cons_self _ _
    have hp : '*' ∉ p := fun hq => h (List.mem_cons_of_mem _ hq)
    cases s with
    | nil =>
      have he : globMatch (c :: p) [] = false := by simp [globMatch, hc]
      simp [he]
    | cons d s =>
      have he : globMatch (c :: p) (d :: s) = (decide (c = d) && globMatch p s) := by
        simp [globMatch, hc]
      rw [he]
      simp only [Bool.and_eq_true, decide_eq_true_eq, List.cons.injEq]
      rw [ih hp s]

theorem globMatch_a_star :
    ∀ s, (globMatch ('a' :: '*' :: []) s = true ↔ ∃ t, s = 'a' :: t) := by
  intro s
  cases s with
  | nil =>
    have he : globMatch ('a' :: '*' :: []) [] = false := by simp [globMatch]
    simp [he]
  | cons d s =>
    have he : globMatch ('a' :: '*' :: []) (d :: s)
        = (decide ('a' = d) && globMatch ['*'] s) := by
      simp [globMatch]
    rw [he, globMatch_star_all s]
    simp only [Bool.and_true, decide_eq_true_eq, List.cons.injEq]
    constructor
    · intro hq
      exact ⟨s, hq.symm, rfl⟩
    · intro ⟨t, ht⟩
      exact ht.1.symm

/-- C5: the claim quantifies over every clear pattern, but the escaping of
FilterProvides leaves the backslash unescaped and turns parentheses and
braces into basic-regex constructs, so for the pattern consisting of a
single opening parenthesis the escaped regex fails to compile and the
filter returns an error instead of removing the key "(" that the glob
contract says fully matches the pattern. -/
theorem c5_counterexample :
    filterProvides [] ["("] [("(", "v")] = Except.error CtxError.assertError ∧
    globMatch "(".data "(".data = true ∧
    filterProvides [] ["("] [("(", "v")] ≠ Except.ok [] := by
  refine ⟨by decide, by decide, by decide⟩

/-- C5 amended: for every clear pattern containing neither a backslash nor a
parenthesis or brace character, the pattern filter removes exactly the keys
whose full string matches the pattern, with a star matching zero or more
arbitrary characters and every other character matching itself literally;
in particular a star-free pattern removes only the key equal to the
pattern, the pattern a-star matches exactly the strings starting with a,
and the pattern star matches every string. -/
theorem c5_glob_filter_amended (pat : String) (m : Pmap)
    (hsafe : ∀ c ∈ pat.data, safeChar c = true) :
    filterOne m pat = .ok (m.filter (fun kv => ! globMatch pat.data kv.1.data)) ∧
    (('*' ∉ pat.data) → ∀ s, (globMatch pat.data s = true ↔ pat.data = s)) ∧
    (∀ s, (globMatch ('a' :: '*' :: []) s = true ↔ ∃ t, s = 'a' :: t)) ∧
    (∀ s, globMatch ['*'] s = true) :=
  ⟨filterOne_safe pat m hsafe,
   fun hns => globMatch_no_star pat.data hns,
   globMatch_a_star,
   globMatch_star_all⟩

theorem c5_glob_filter_amended_witness :
    (∀ c ∈ "a*".data, safeChar c = true) ∧
    filterOne [("ab", "1"), ("b", "2")] "a*"
      = .ok ([("ab", "1"), ("b", "2")].filter
          (fun kv => ! globMatch "a*".data kv.1.data)) :=
  ⟨by decide, (c5_glob_filter_amended "a*" [("ab", "1"), ("b", "2")] (by decide)).1⟩

/-- C6: the claim says the escaped regular expression compiles for every
pattern and the assertion branch is unreachable, but the code leaves the
backslash unescaped and escapes parentheses into marked-subexpression
delimiters of the basic regex grammar, so the pattern consisting of one
opening parenthesis escapes to a lone backslash-parenthesis, which fails to
compile and makes FilterProvides return the assertion branch's error. -/
theorem c6_compile_failure :
    escapeGlob "(".data = ['\\', '('] ∧
    compileBRE (escapeGlob "(".data) = none ∧
    filterOne [] "(" = Except.error CtxError.assertError ∧
    filterProvides [] ["("] [] = Except.error CtxError.assertError := by
  refine ⟨by decide, by decide, by decide, by decide⟩

theorem checkTIDepends_eq_all (tis provides : Pmap) :
    checkTIDepends tis provides
      = tis.all (fun kv => plookup kv.1 provides == some kv.2) := by
  induction tis with
  | nil => rfl
  | cons kv tis ih =>
    rw [List.all_cons, ← ih]
    show (match plookup kv.1 provides with
          | none => false
          | some v => if v = kv.2 then checkTIDepends tis provides else false)
        = ((plookup kv.1 provides == some kv.2) && checkTIDepends tis provides)
    match h : plookup kv.1 provides with
    | none => simp
    | some v =>
      by_cases hv : v = kv.2
      · simp [hv]
      · simp [hv]

/-- Compatibility verdict the matcher reaches once the structural check has
passed, stated from its conditions. -/
def matcherVerdict (provides : Pmap) (device_type : String)
    (dep : HeaderDepends) (ti : Option Pmap) : Bool :=
  dep.device_type.contains device_type
    && (match dep.artifact_name with
        | none => true
        | some l => l.contains ((plookup "artifact_name" provides).getD ""))
    && (match dep.artifact_group with
        | none => true
        | some l => (plookup "artifact_group" provides).isSome
            && l.contains ((plookup "artifact_group" provides).getD ""))
    && (match ti with
        | none => true
        | some tis => tis.all (fun kv => plookup kv.1 provides == some kv.2))

theorem matchTIPart_eq (provides : Pmap) (ti : Option Pmap) :
    matchTIPart provides ti = Except.ok
      (match ti with
       | none => true
       | some tis => tis.all (fun kv => plookup kv.1 provides == some kv.2)) := by
  match ti with
  | none => rfl
  | some tis =>
    show Except.ok (checkTIDepends tis provides) = _
    rw [checkTIDepends_eq_all]

theorem matchGroupPart_eq (provides : Pmap) (dep : HeaderDepends) (ti : Option Pmap)
    (hgroup : ∀ l, dep.artifact_group = some l → l ≠ []) :
    matchGroupPart provides dep ti = Except.ok
      ((match dep.artifact_group with
        | none => true
        | some l => (plookup "artifact_group" provides).isSome
            && l.contains ((plookup "artifact_group" provides).getD ""))
       && (match ti with
           | none => true
           | some tis => tis.all (fun kv => plookup kv.1 provides == some kv.2))) := by
  unfold matchGroupPart
  match hg : dep.artifact_group with
  | none =>
    simp only [Bool.true_and]
    exact matchTIPart_eq provides ti
  | some gl =>
    have hgl : ¬ (gl.length = 0) := by
      intro hq
      exact hgroup gl hg (List.eq_nil_of_length_eq_zero hq)
    dsimp only
    rw [if_neg hgl]
    match hgs : plookup "artifact_group" provides with
    | none =>
      rw [if_pos (by rfl)]
      simp only [Option.isSome_none, Bool.false_and]
    | some g =>
      rw [if_neg (by simp)]
      by_cases hgc : gl.contains g = true
      · rw [if_neg (by simp only [Option.getD_some, hgc]; decide)]
        rw [matchTIPart_eq provides ti]
        simp only [Option.isSome_some, Option.getD_some, hgc, Bool.true_and]
      · have hgc2 : gl.contains g = false := by simpa using hgc
        rw [if_pos (by simp only [Option.getD_some, hgc2]; decide)]
        simp only [Option.isSome_some, Option.getD_some, hgc2, Bool.true_and, Bool.false_and]

/-- C2 counterexample: with provides mapping artifact_name to the empty
string the claim demands a reported value error, since provides then lacks
a non-empty artifact_name; the code only tests key presence, proceeds, and
returns ok true here. -/
theorem c2_counterexample :
    artifactMatchesContext [("artifact_name", "")] "qemu"
      ⟨["qemu"], none, none⟩ none = Except.ok true := by decide

/-- C2 amended: assuming the upstream invariants that the header depends
device_type list is non-empty and that the optional artifact_name and
artifact_group lists are non-empty when present, the matcher returns a
reported value error exactly when provides lacks the artifact_name key
(regardless of its value), and otherwise returns ok of the conjunction:
device type listed, provides artifact_name listed whenever a name list is
present, artifact_group key present with its value listed whenever a group
list is present, and every type-info depends key present in provides with
an exactly equal value; every ordinary mismatch yields ok false, never a
reported error. -/
theorem c2_matcher_amended (provides : Pmap) (device_type : String)
    (dep : HeaderDepends) (ti : Option Pmap)
    (hdev : dep.device_type ≠ [])
    (hname : ∀ l, dep.artifact_name = some l → l ≠ [])
    (hgroup : ∀ l, dep.artifact_group = some l → l ≠ []) :
    (artifactMatchesContext provides device_type dep ti
        = Except.error CtxError.valueError
      ↔ plookup "artifact_name" provides = none) ∧
    ((plookup "artifact_name" provides).isSome →
      artifactMatchesContext provides device_type dep ti
        = Except.ok (matcherVerdict provides device_type dep ti)) := by
  have hmain : (plookup "artifact_name" provides).isSome →
      artifactMatchesContext provides device_type dep ti
        = Except.ok (matcherVerdict provides device_type dep ti) := by
    intro hs
    have hnn : ¬ ((plookup "artifact_name" provides).isNone = true) := by
      rw [Option.isNone_iff_eq_none]
      intro hq
      rw [hq] at hs
      cases hs
    have hlen : ¬ (dep.device_type.length = 0) := by
      intro hq
      exact hdev (List.eq_nil_of_length_eq_zero hq)
    unfold artifactMatchesContext matcherVerdict
    rw [if_neg hnn, if_neg hlen]
    by_cases hcont : dep.device_type.contains device_type = true
    · rw [if_neg (by rw [hcont]; simp)]
      rw [hcont]
      simp only [Bool.true_and]
      match hn : dep.artifact_name with
      | none =>
        exact matchGroupPart_eq provides dep ti hgroup
      | some nl =>
        have hnl : ¬ (nl.length = 0) := by
          intro hq
          exact hname nl hn (List.eq_nil_of_length_eq_zero hq)
        dsimp only
        rw [if_neg hnl]
        by_cases hnc : nl.contains ((plookup "artifact_name" provides).getD "") = true
        · rw [if_neg (by rw [hnc]; simp)]
          rw [hnc]
          simp only [Bool.true_and]
          exact matchGroupPart_eq provides dep ti hgroup
        · have hnc2 : nl.contains ((plookup "artifact_name" provides).getD "") = false := by
            simpa using hnc
          rw [if_pos (by rw [hnc2]; rfl)]
          rw [hnc2]
          simp
    · have hcont2 : dep.device_type.contains device_type = false := by
        simpa using hcont
      rw [if_pos (by rw [hcont2]; rfl)]
      rw [hcont2]
      simp
  refine ⟨⟨?_, ?_⟩, hmain⟩
  · intro herr
    by_contra hq
    have hv : (plookup "artifact_name" provides).isSome = true := by
      match h : plookup "artifact_name" provides with
      | none => exact absurd h hq
      | some v => rfl
    rw [hmain hv] at herr
    cases herr
  · intro hnone
    unfold artifactMatchesContext
    rw [if_pos (by rw [Option.isNone_iff_eq_none]; exact hnone)]

theorem c2_matcher_amended_witness :
    ((["qemu"] : List String) ≠ [] ∧
      (plookup "artifact_name"
        [("artifact_group", "g1"), ("artifact_name", "app"),
         ("rootfs-image.checksum", "abc")]).isSome) ∧
    artifactMatchesContext
        [("artifact_group", "g1"), ("artifact_name", "app"),
         ("rootfs-image.checksum", "abc")]
        "qemu" ⟨["qemu"], none, some ["g1", "g2"]⟩
        (some [("rootfs-image.checksum", "abc")])
      = Except.ok true :=
  ⟨⟨by decide, by decide⟩, by
    have h := (c2_matcher_amended
      [("artifact_group", "g1"), ("artifact_name", "app"),
       ("rootfs-image.checksum", "abc")]
      "qemu" ⟨["qemu"], none, some ["g1", "g2"]⟩
      (some [("rootfs-image.checksum", "abc")])
      (by decide) (fun l hl => by cases hl) (fun l hl => by
        cases hl
        decide)).2 (by decide)
    rw [h]
    decide⟩

theorem string_mk_data (s : String) : String.mk s.data = s := by
  cases s
  rfl

theorem takeWhile_all (p : Char → Bool) :
    ∀ (l : List Char), (∀ c ∈ l, p c = true) → l.takeWhile p = l := by
  intro l
  induction l with
  | nil => intro h; rfl
  | cons c l ih =>
    intro h
    rw [List.takeWhile_cons, if_pos (h c (List.mem_cons_self _ _))]
    rw [ih (fun c hm => h c (List.mem_cons_of_mem _ hm))]

theorem dropWhile_all (p : Char → Bool) :
    ∀ (l : List Char), (∀ c ∈ l, p c = true) → l.dropWhile p = [] := by
  intro l
  induction l with
  | nil => intro h; rfl
  | cons c l ih =>
    intro h
    rw [List.dropWhile_cons, if_pos (h c (List.mem_cons_self _ _))]
    exact ih (fun c hm => h c (List.mem_cons_of_mem _ hm))

theorem takeWhile_append_stop (p : Char → Bool) (c0 : Char) (hc : p c0 = false) :
    ∀ (l r : List Char), (∀ c ∈ l, p c = true) →
      (l ++ c0 :: r).takeWhile p = l ∧ (l ++ c0 :: r).dropWhile p = c0 :: r := by
  intro l
  induction l with
  | nil =>
    intro r h
    constructor
    · rw [List.nil_append, List.takeWhile_cons, hc]
      rfl
    · rw [List.nil_append, List.dropWhile_cons, hc]
      rfl
  | cons c l ih =>
    intro r h
    have hcl := h c (List.mem_cons_self _ _)
    have hrest := fun c hm => h c (List.mem_cons_of_mem _ hm)
    constructor
    · rw [List.cons_append, List.takeWhile_cons, if_pos hcl, (ih r hrest).1]
    · rw [List.cons_append, List.dropWhile_cons, if_pos hcl]
      exact (ih r hrest).2

theorem getlineM_no_nl (l : List Char) (h : '\n' ∉ l) : getlineM l = (l, [], true) := by
  have hp : ∀ c ∈ l, (fun c => decide (c ≠ '\n')) c = true := by
    intro c hm
    simp only [decide_eq_true_eq]
    intro hq
    rw [hq] at hm
    exact h hm
  unfold getlineM
  rw [takeWhile_all _ l hp, dropWhile_all _ l hp]

theorem getlineM_nl (l r : List Char) (h : '\n' ∉ l) :
    getlineM (l ++ '\n' :: r) = (l, r, false) := by
  have hp : ∀ c ∈ l, (fun c => decide (c ≠ '\n')) c = true := by
    intro c hm
    simp only [decide_eq_true_eq]
    intro hq
    rw [hq] at hm
    exact h hm
  have hc : (fun c => decide (c ≠ '\n')) '\n' = false := by decide
  obtain ⟨h1, h2⟩ := takeWhile_append_stop _ '\n' hc l r hp
  unfold getlineM
  rw [h1, h2]

theorem dt_prefix_data : ("device_type=" : String).data.length = 12 := by decide

theorem getlineM_fst (l : List Char) :
    (getlineM l).1 = l.takeWhile (fun c => decide (c ≠ '\n')) := by
  unfold getlineM
  split <;> rfl

theorem getDeviceType_exact (v : String) (hv : '\n' ∉ v.data) :
    getDeviceType ("device_type=" ++ v) = Except.ok v := by
  unfold getDeviceType
  rw [String.data_append]
  have hnl : '\n' ∉ ("device_type=" : String).data ++ v.data := by
    intro hm
    rcases List.mem_append.mp hm with hm | hm
    · simp at hm
    · exact hv hm
  rw [getlineM_no_nl _ hnl]
  have ht : (("device_type=" : String).data ++ v.data).take 12
      = ("device_type=" : String).data := by
    rw [← dt_prefix_data, List.take_left]
  have hd : (("device_type=" : String).data ++ v.data).drop 12 = v.data := by
    rw [← dt_prefix_data, List.drop_left]
  dsimp only
  rw [ht]
  rw [if_neg (by simp)]
  rw [if_pos rfl]
  rw [hd, string_mk_data]

theorem getDeviceType_trailing_newline (v : String) (hv : '\n' ∉ v.data) :
    getDeviceType ("device_type=" ++ v ++ "\n") = Except.ok v := by
  unfold getDeviceType
  rw [String.data_append, String.data_append]
  have hnl : '\n' ∉ ("device_type=" : String).data ++ v.data := by
    intro hm
    rcases List.mem_append.mp hm with hm | hm
    · simp at hm
    · exact hv hm
  have heq : (("device_type=" : String).data ++ v.data) ++ ("\n" : String).data
      = (("device_type=" : String).data ++ v.data) ++ '\n' :: [] := rfl
  rw [heq, getlineM_nl _ [] hnl]
  have ht : (("device_type=" : String).data ++ v.data).take 12
      = ("device_type=" : String).data := by
    rw [← dt_prefix_data, List.take_left]
  have hd : (("device_type=" : String).data ++ v.data).drop 12 = v.data := by
    rw [← dt_prefix_data, List.drop_left]
  dsimp only
  rw [ht]
  rw [if_neg (by simp)]
  rw [if_neg (by simp)]
  rw [if_neg (by simp [getlineM])]
  rw [hd, string_mk_data]

theorem getDeviceType_trailing_garbage (v r : String) (hv : '\n' ∉ v.data)
    (hr : r ≠ "") :
    getDeviceType ("device_type=" ++ v ++ "\n" ++ r)
      = Except.error CtxError.valueError := by
  unfold getDeviceType
  rw [String.data_append, String.data_append, String.data_append]
  have hnl : '\n' ∉ ("device_type=" : String).data ++ v.data := by
    intro hm
    rcases List.mem_append.mp hm with hm | hm
    · simp at hm
    · exact hv hm
  have heq : ((("device_type=" : String).data ++ v.data) ++ ("\n" : String).data) ++ r.data
      = (("device_type=" : String).data ++ v.data) ++ '\n' :: r.data := by
    rw [List.append_assoc]
    rfl
  rw [heq, getlineM_nl _ r.data hnl]
  have ht : (("device_type=" : String).data ++ v.data).take 12
      = ("device_type=" : String).data := by
    rw [← dt_prefix_data, List.take_left]
  have hrd : r.data ≠ [] := by
    intro hq
    apply hr
    cases r
    simp only at hq
    rw [hq]
  dsimp only
  rw [ht]
  rw [if_neg (by simp)]
  rw [if_neg (by simp)]
  have hcond : (getlineM r.data).1 ≠ [] ∨ (getlineM r.data).2.2 = false := by
    rcases hm : r.data with _ | ⟨c, rest⟩
    · exact absurd hm hrd
    · by_cases hc : c = '\n'
      · subst hc
        right
        have h2 : getlineM ('\n' :: rest) = ([], rest, false) := by
          have h3 := getlineM_nl [] rest (by intro h; cases h)
          rwa [List.nil_append] at h3
        rw [h2]
      · left
        rw [getlineM_fst, List.takeWhile_cons, if_pos (by simp [hc])]
        intro hq
        cases hq
  rw [if_pos hcond]

theorem getDeviceType_bad_prefix (content : String)
    (h : (content.data.takeWhile (fun c => decide (c ≠ '\n'))).take 12
      ≠ ("device_type=" : String).data) :
    getDeviceType content = Except.error CtxError.parseError := by
  unfold getDeviceType
  unfold getlineM
  rcases hy : content.data.dropWhile (fun c => decide (c ≠ '\n')) with _ | ⟨c0, r0⟩
  · rw [if_pos h]
  · rw [if_pos h]

/-- C8: the device type reader returns the remainder of the first line
verbatim when it starts with the device_type= prefix, both with and
without a single trailing newline; any content after that newline, and a
first line without the prefix, are reported errors; the two concrete
examples of the claim evaluate accordingly. -/
theorem c8_device_type (v r : String) (hv : '\n' ∉ v.data) (hr : r ≠ "") :
    getDeviceType "device_type=foo\n" = Except.ok "foo" ∧
    getDeviceType "device_type=foo\nbar\n" = Except.error CtxError.valueError ∧
    getDeviceType ("device_type=" ++ v) = Except.ok v ∧
    getDeviceType ("device_type=" ++ v ++ "\n") = Except.ok v ∧
    getDeviceType ("device_type=" ++ v ++ "\n" ++ r)
      = Except.error CtxError.valueError ∧
    (∀ content : String,
      (content.data.takeWhile (fun c => decide (c ≠ '\n'))).take 12
          ≠ ("device_type=" : String).data →
      getDeviceType content = Except.error CtxError.parseError) :=
  ⟨by decide, by decide, getDeviceType_exact v hv,
   getDeviceType_trailing_newline v hv,
   getDeviceType_trailing_garbage v r hv hr,
   fun content hc => getDeviceType_bad_prefix content hc⟩

theorem c8_device_type_witness :
    ('\n' ∉ ("foo " : String).data ∧ ("x" : String) ≠ "") ∧
    getDeviceType ("device_type=" ++ "foo " ++ "\n" ++ "x")
      = Except.error CtxError.valueError :=
  ⟨⟨by decide, by decide⟩, (c8_device_type "foo " "x" (by decide) (by decide)).2.2.2.2.1⟩

/-- C10: a first line that is exactly the prefix device_type= with nothing
after it parses successfully to the empty device type value, with and
without a trailing newline, rather than being reported as an error. -/
theorem c10_empty_device_type :
    getDeviceType "device_type=" = Except.ok "" ∧
    getDeviceType "device_type=\n" = Except.ok "" := ⟨by decide, by decide⟩

/-- C4: the claim says the artifact-provides record is absent after every
successful commit whose merged mapping has no non-reserved keys; but the
code only skips the write when the encoded blob is empty and never removes
the old record, so a stale artifact-provides record survives the commit and
a subsequent load even reports the stale key, violating the mutual
consistency of the record set. -/
theorem c4_stale_provides_record :
    (commitArtifactData
        [("artifact-name", "old"), ("artifact-provides", "\x7b\"x\":\"y\"\x7d")]
        "a" "" (some []) none Except.ok).2 = none ∧
    encodeProvides (applyArgs "a" "" []) = "" ∧
    plookup artifact_provides_key
      (commitArtifactData
        [("artifact-name", "old"), ("artifact-provides", "\x7b\"x\":\"y\"\x7d")]
        "a" "" (some []) none Except.ok).1 = some "\x7b\"x\":\"y\"\x7d" ∧
    loadProvides (commitArtifactData
        [("artifact-name", "old"), ("artifact-provides", "\x7b\"x\":\"y\"\x7d")]
        "a" "" (some []) none Except.ok).1
      = Except.ok [("artifact_name", "a"), ("x", "y")] :=
  ⟨by decide, by decide, by decide, by decide⟩

/-- C3: the whole body of CommitArtifactData runs inside one write
transaction of the external store, so whenever the body fails, and in
particular whenever the caller-supplied continuation always fails, the
final store is exactly the starting store and the error is surfaced: no
partial record set is ever observable. -/
theorem c3_rollback (s : Store) (an ag : String) (np : Option Pmap)
    (cp : Option (List String)) (f : Store → Except CtxError Store) :
    (∀ e, commitBody s an ag np cp f = .error e →
      commitArtifactData s an ag np cp f = (s, some e)) ∧
    (∀ e, (∀ st, f st = .error e) →
      (commitArtifactData s an ag np cp f).1 = s ∧
      (commitArtifactData s an ag np cp f).2 ≠ none) := by
  constructor
  · intro e he
    unfold commitArtifactData
    rw [he]
  · intro e hf
    have hb : ∃ e', commitBody s an ag np cp f = .error e' := by
      unfold commitBody
      match h1 : loadProvides s with
      | .error e1 => exact ⟨e1, rfl⟩
      | .ok existing =>
        dsimp only
        match h2 : mergedMap existing np cp with
        | .error e2 => exact ⟨e2, rfl⟩
        | .ok m0 =>
          dsimp only
          by_cases hname :
              (plookup "artifact_name" (applyArgs an ag m0)).getD "" = ""
          · rw [if_pos hname]
            exact ⟨CtxError.assertError, rfl⟩
          · rw [if_neg hname]
            exact ⟨e, hf _⟩
    obtain ⟨e', he'⟩ := hb
    unfold commitArtifactData
    rw [he']
    exact ⟨rfl, by intro hq; cases hq⟩

theorem c3_rollback_witness :
    (commitArtifactData [("artifact-name", "x")] "a" "" none none
        (fun _ => Except.error (CtxError.contFail 0))).1 = [("artifact-name", "x")] ∧
    (commitArtifactData [("artifact-name", "x")] "a" "" none none
        (fun _ => Except.error (CtxError.contFail 0))).2 ≠ none :=
  (c3_rollback [("artifact-name", "x")] "a" "" none none
      (fun _ => Except.error (CtxError.contFail 0))).2
    (CtxError.contFail 0) (fun _ => rfl)

theorem pureFilter_lookup_sub (cs : List String) :
    ∀ (m F : Pmap), pureFilter cs m = .ok F →
      ∀ k, plookup k F = none ∨ plookup k F = plookup k m := by
  induction cs with
  | nil =>
    intro m F h k
    have h0 : pureFilter [] m = Except.ok m := rfl
    rw [h0] at h
    right
    rw [← Except.ok.inj h]
  | cons pat cs ih =>
    intro m F h k
    unfold pureFilter at h
    rw [List.foldlM_cons] at h
    match hf : filterOne m pat with
    | .error e =>
      rw [hf] at h
      cases h
    | .ok m1 =>
      rw [hf] at h
      have h2 : pureFilter cs m1 = .ok F := h
      rcases ih m1 F h2 k with hk | hk
      · left; exact hk
      · unfold filterOne at hf
        match hc : compileBRE (escapeGlob pat.data) with
        | none => rw [hc] at hf; cases hf
        | some atoms =>
          rw [hc] at hf
          have hm1 : m1 = m.filter (fun kv => ! ratomsMatch atoms kv.1.data) :=
            (Except.ok.inj hf).symm
          rw [hm1] at hk
          rw [plookup_filter (fun x => ! ratomsMatch atoms x.data) k m] at hk
          by_cases hp : (! ratomsMatch atoms k.data) = true
          · rw [if_pos hp] at hk
            right; exact hk
          · rw [if_neg hp] at hk
            left; exact hk

theorem applyArgs_name (an ag : String) (han : ¬ (an = "")) (m : Pmap) :
    plookup "artifact_name" (applyArgs an ag m) = some an := by
  unfold applyArgs
  dsimp only
  by_cases hag : ag = ""
  · rw [if_pos hag, if_neg han, plookup_pinsert_self]
  · rw [if_neg hag, plookup_pinsert_ne _ _ _ _ (by decide), if_neg han,
      plookup_pinsert_self]

theorem applyArgs_group (an ag : String) (hag : ¬ (ag = "")) (m : Pmap) :
    plookup "artifact_group" (applyArgs an ag m) = some ag := by
  unfold applyArgs
  dsimp only
  rw [if_neg hag, plookup_pinsert_self]

theorem applyArgs_other (an ag k : String) (hk1 : k ≠ "artifact_name")
    (hk2 : k ≠ "artifact_group") (m : Pmap) :
    plookup k (applyArgs an ag m) = plookup k m := by
  unfold applyArgs
  dsimp only
  by_cases hag : ag = ""
  · rw [if_pos hag]
    by_cases han : an = ""
    · rw [if_pos han]
    · rw [if_neg han, plookup_pinsert_ne _ _ _ _ hk1]
  · rw [if_neg hag, plookup_pinsert_ne _ _ _ _ hk2]
    by_cases han : an = ""
    · rw [if_pos han]
    · rw [if_neg han, plookup_pinsert_ne _ _ _ _ hk1]

/-- C1: the merge of CommitArtifactData follows exactly the four cases of
the claim: with neither new provides nor clears it yields the empty map;
with only clears it filters the existing map pattern by pattern in caller
order and adds no keys, every surviving key keeping its existing value;
with only new provides it is the new provides verbatim; with both it is
the filtered existing map overlaid with the new provides, the new values
winning every collision; and afterwards a non-empty artifact name or group
argument unconditionally overwrites the corresponding reserved key while
leaving every other key alone, in every case including the both-absent
one. -/
theorem c1_merge_cases (E n F : Pmap) (cs : List String) (an ag : String)
    (hn : Psorted n) (hF : pureFilter cs E = .ok F) :
    (mergedMap E none none = .ok []) ∧
    (mergedMap E none (some cs) = .ok F ∧
      ∀ k, plookup k F = none ∨ plookup k F = plookup k E) ∧
    (mergedMap E (some n) none = .ok n) ∧
    (mergedMap E (some n) (some cs) = .ok (overlay n F) ∧
      ∀ k, plookup k (overlay n F) = ofirst (plookup k n) (plookup k F)) ∧
    (¬ (an = "") → ∀ m, plookup "artifact_name" (applyArgs an ag m) = some an) ∧
    (¬ (ag = "") → ∀ m, plookup "artifact_group" (applyArgs an ag m) = some ag) ∧
    (∀ k m, k ≠ "artifact_name" → k ≠ "artifact_group" →
      plookup k (applyArgs an ag m) = plookup k m) := by
  refine ⟨rfl, ⟨?_, ?_⟩, rfl, ⟨?_, ?_⟩, ?_, ?_, ?_⟩
  · show filterProvides [] cs E = .ok F
    unfold filterProvides
    rw [hF]
    rfl
  · exact pureFilter_lookup_sub cs E F hF
  · show filterProvides n cs E = .ok (overlay n F)
    unfold filterProvides
    rw [hF]
  · intro k
    exact plookup_overlay k n hn F
  · intro han m
    exact applyArgs_name an ag han m
  · intro hag m
    exact applyArgs_group an ag hag m
  · intro k m hk1 hk2
    exact applyArgs_other an ag k hk1 hk2 m

theorem c1_merge_cases_witness :
    (Psorted [("y", "2")] ∧
      pureFilter ["x"] [("artifact_name", "old"), ("x", "1")]
        = .ok [("artifact_name", "old")]) ∧
    mergedMap [("artifact_name", "old"), ("x", "1")] none none = .ok [] ∧
    mergedMap [("artifact_name", "old"), ("x", "1")] (some [("y", "2")]) (some ["x"])
      = .ok (overlay [("y", "2")] [("artifact_name", "old")]) :=
  ⟨⟨by decide, by decide⟩,
   (c1_merge_cases [("artifact_name", "old"), ("x", "1")] [("y", "2")]
      [("artifact_name", "old")] ["x"] "a" "" (by decide) (by decide)).1,
   (c1_merge_cases [("artifact_name", "old"), ("x", "1")] [("y", "2")]
      [("artifact_name", "old")] ["x"] "a" "" (by decide) (by decide)).2.2.2.1.1⟩

/-- The decode path of LoadProvides for the provides blob record (context.cpp
lines 165-190): an absent or empty record decodes to the empty mapping, any
other content goes through the JSON parser. -/
def decodeProvides (s : String) : Except CtxError Pmap :=
  if s = "" then .ok [] else jsonLoadObj s

/-- A key character that the raw-key emission of the encoder keeps intact
inside a JSON string: not a quote, not a backslash, not a control
character. -/
def cleanKeyChar (c : Char) : Bool :=
  !(c == '"' || c == '\\') && decide (32 ≤ c.toNat)

/-- A key every character of which survives the raw emission. -/
def cleanKey (k : String) : Bool := k.data.all cleanKeyChar

/-- A value character inside the fragment the modelled escaping covers. -/
def okValChar (c : Char) : Bool :=
  decide (32 ≤ c.toNat) || c == '\n' || c == '\r' || c == '\t'

/-- A value every character of which the modelled escaping covers. -/
def okVal (v : String) : Bool := v.data.all okValChar

/-- Not one of the two reserved provides keys. -/
def nonReservedKey (k : String) : Bool :=
  !(k == "artifact_name" || k == "artifact_group")

/-- The characters one encoded member contributes before its separator. -/
def encPair (kv : String × String) : List Char :=
  '"' :: kv.1.data ++ '"' :: ':' :: '"' :: escapeJson kv.2.data ++ ['"']

/-- The members part of the blob as the loop builds it, a trailing comma
after every member. -/
def encBodyC : Pmap → List Char
  | [] => []
  | kv :: m => (encPair kv ++ [',']) ++ encBodyC m

/-- The members part of the blob after the trailing comma has been turned
into the closing brace. -/
def encMembers : Pmap → List Char
  | [] => ['\x7d']
  | [kv] => encPair kv ++ ['\x7d']
  | kv :: m => encPair kv ++ ',' :: encMembers m

theorem parseStr_escape (v : List Char) (hv : ∀ c ∈ v, okValChar c = true) :
    ∀ rest, parseStr (escapeJson v ++ '"' :: rest) = some (v, rest) := by
  induction v with
  | nil =>
    intro rest
    simp [escapeJson, parseStr]
  | cons c v ih =>
    intro rest
    have hc := hv c (List.mem_cons_self _ _)
    have hrest := fun x hm => hv x (List.mem_cons_of_mem _ hm)
    by_cases h1 : c = '"'
    · subst h1
      have he : escapeJson ('"' :: v) = '\\' :: '"' :: escapeJson v := by
        simp [escapeJson]
      rw [he]
      show parseStr ('\\' :: '"' :: (escapeJson v ++ '"' :: rest)) = _
      simp [parseStr, parseEsc, unescChar, ih hrest rest]
    · by_cases h2 : c = '\\'
      · subst h2
        have he : escapeJson ('\\' :: v) = '\\' :: '\\' :: escapeJson v := by
          simp [escapeJson]
        rw [he]
        show parseStr ('\\' :: '\\' :: (escapeJson v ++ '"' :: rest)) = _
        simp [parseStr, parseEsc, unescChar, ih hrest rest]
      · by_cases h3 : c = '\n'
        · subst h3
          have he : escapeJson ('\n' :: v) = '\\' :: 'n' :: escapeJson v := by
            simp [escapeJson]
          rw [he]
          show parseStr ('\\' :: 'n' :: (escapeJson v ++ '"' :: rest)) = _
          simp [parseStr, parseEsc, unescChar, ih hrest rest]
        · by_cases h4 : c = '\r'
          · subst h4
            have he : escapeJson ('\r' :: v) = '\\' :: 'r' :: escapeJson v := by
              simp [escapeJson]
            rw [he]
            show parseStr ('\\' :: 'r' :: (escapeJson v ++ '"' :: rest)) = _
            simp [parseStr, parseEsc, unescChar, ih hrest rest]
          · by_cases h5 : c = '\t'
            · subst h5
              have he : escapeJson ('\t' :: v) = '\\' :: 't' :: escapeJson v := by
                simp [escapeJson]
              rw [he]
              show parseStr ('\\' :: 't' :: (escapeJson v ++ '"' :: rest)) = _
              simp [parseStr, parseEsc, unescChar, ih hrest rest]
            · have he : escapeJson (c :: v) = c :: escapeJson v := by
                simp [escapeJson, h1, h2, h3, h4, h5]
              rw [he]
              have hge : ¬ (c.toNat < 32) := by
                simp only [okValChar, Bool.or_eq_true, beq_iff_eq, decide_eq_true_eq] at hc
                rcases hc with ((hc | hc) | hc) | hc
                · omega
                · exact absurd hc h3
                · exact absurd hc h4
                · exact absurd hc h5
              show parseStr (c :: (escapeJson v ++ '"' :: rest)) = _
              simp [parseStr, h1, h2, hge, ih hrest rest]

theorem parseStr_raw (k : List Char) (hk : ∀ c ∈ k, cleanKeyChar c = true) :
    ∀ rest, parseStr (k ++ '"' :: rest) = some (k, rest) := by
  induction k with
  | nil =>
    intro rest
    simp [parseStr]
  | cons c k ih =>
    intro rest
    have hc := hk c (List.mem_cons_self _ _)
    have hrest := fun x hm => hk x (List.mem_cons_of_mem _ hm)
    simp only [cleanKeyChar, Bool.and_eq_true, Bool.not_eq_true', Bool.or_eq_false_iff,
      beq_eq_false_iff_ne, decide_eq_true_eq] at hc
    obtain ⟨⟨h1, h2⟩, h3⟩ := hc
    have hge : ¬ (c.toNat < 32) := by omega
    show parseStr (c :: (k ++ '"' :: rest)) = _
    simp [parseStr, h1, h2, hge, ih hrest rest]

theorem encStep_pos (acc : List Char) (kv : String × String)
    (h : nonReservedKey kv.1 = true) :
    encStep acc kv = acc ++ (encPair kv ++ [',']) := by
  have hcond : kv.1 ≠ "artifact_name" ∧ kv.1 ≠ "artifact_group" := by
    simp only [nonReservedKey, Bool.not_eq_true', Bool.or_eq_false_iff,
      beq_eq_false_iff_ne] at h
    exact h
  unfold encStep
  rw [if_pos hcond]
  simp [encPair]

theorem encStep_neg (acc : List Char) (kv : String × String)
    (h : nonReservedKey kv.1 = false) :
    encStep acc kv = acc := by
  have hcond : ¬ (kv.1 ≠ "artifact_name" ∧ kv.1 ≠ "artifact_group") := by
    simp only [nonReservedKey, Bool.not_eq_false', Bool.or_eq_true, beq_iff_eq] at h
    rcases h with h | h
    · intro hq; exact hq.1 h
    · intro hq; exact hq.2 h
  unfold encStep
  rw [if_neg hcond]

theorem foldl_encStep (m : Pmap) : ∀ acc,
    m.foldl encStep acc
      = acc ++ encBodyC (m.filter (fun kv => nonReservedKey kv.1)) := by
  induction m with
  | nil => intro acc; simp [encBodyC]
  | cons kv m ih =>
    intro acc
    rw [List.foldl_cons, List.filter_cons]
    by_cases h : nonReservedKey kv.1 = true
    · rw [encStep_pos acc kv h, ih, h]
      simp only [if_true]
      rw [encBodyC, List.append_assoc]
    · have h2 : nonReservedKey kv.1 = false := by
        simpa using h
      rw [encStep_neg acc kv h2, ih, h2]
      simp only [Bool.false_eq_true, if_false]

theorem encBodyC_ne_nil (kv : String × String) (m : Pmap) :
    encBodyC (kv :: m) ≠ [] := by
  rw [encBodyC]
  simp [encPair]

theorem encBodyC_dropLast (m : Pmap) (hm : m ≠ []) :
    (encBodyC m).dropLast ++ ['\x7d'] = encMembers m := by
  induction m with
  | nil => exact absurd rfl hm
  | cons kv m ih =>
    cases m with
    | nil =>
      rw [encBodyC, encBodyC, List.append_nil, List.dropLast_concat]
      rfl
    | cons kv2 m2 =>
      have h1 : encBodyC (kv :: kv2 :: m2)
          = (encPair kv ++ [',']) ++ encBodyC (kv2 :: m2) := rfl
      rw [h1, List.dropLast_append_of_ne_nil _ (encBodyC_ne_nil kv2 m2),
        List.append_assoc, ih (by intro hq; cases hq)]
      rw [List.append_assoc]
      rfl

theorem encodeProvidesL_members (m : Pmap) (hm : m.filter (fun kv => nonReservedKey kv.1) ≠ []) :
    encodeProvidesL m = '\x7b' :: encMembers (m.filter (fun kv => nonReservedKey kv.1)) := by
  unfold encodeProvidesL
  rw [foldl_encStep m ['\x7b']]
  have hne : ('\x7b' :: []) ++ encBodyC (m.filter (fun kv => nonReservedKey kv.1))
      ≠ ['\x7b'] := by
    match hq : m.filter (fun kv => nonReservedKey kv.1) with
    | [] => exact absurd hq hm
    | kv :: m2 =>
      have h2 : encBodyC (kv :: m2) = (encPair kv ++ [',']) ++ encBodyC m2 := rfl
      rw [hq, h2]
      simp [encPair]
  rw [if_neg (by simpa using hne)]
  match hq : m.filter (fun kv => nonReservedKey kv.1) with
  | [] => exact absurd hq hm
  | kv :: m2 =>
    have h4 : (('\x7b' :: []) ++ encBodyC (kv :: m2)).dropLast ++ ['\x7d']
        = '\x7b' :: ((encBodyC (kv :: m2)).dropLast ++ ['\x7d']) := by
      rw [List.singleton_append, List.dropLast_cons_of_ne_nil (encBodyC_ne_nil kv m2)]
      rfl
    rw [hq, h4, encBodyC_dropLast (kv :: m2) (by intro hq2; cases hq2)]

theorem encodeProvidesL_empty (m : Pmap)
    (hm : m.filter (fun kv => nonReservedKey kv.1) = []) :
    encodeProvidesL m = [] := by
  unfold encodeProvidesL
  rw [foldl_encStep m ['\x7b'], hm]
  rfl

theorem parseMembers_succ_eq (fuel : Nat) (l : List Char) (acc : Pmap) :
    parseMembers (fuel + 1) l acc
      = match memStep l with
        | .fail => none
        | .done k v => some (pinsert k v acc)
        | .more k v r4 => parseMembers fuel r4 (pinsert k v acc) := rfl

theorem parseMembers_done (fuel : Nat) (l : List Char) (k v : String) (acc : Pmap)
    (h : memStep l = MemStep.done k v) :
    parseMembers (fuel + 1) l acc = some (pinsert k v acc) := by
  rw [parseMembers_succ_eq, h]

theorem parseMembers_more (fuel : Nat) (l r : List Char) (k v : String) (acc : Pmap)
    (h : memStep l = MemStep.more k v r) :
    parseMembers (fuel + 1) l acc = parseMembers fuel r (pinsert k v acc) := by
  rw [parseMembers_succ_eq, h]

theorem memVal_comma (k v : List Char) (r : List Char) :
    memVal k v (',' :: r) = MemStep.more (String.mk k) (String.mk v) r := rfl

theorem memVal_brace (k v : List Char) :
    memVal k v ['\x7d'] = MemStep.done (String.mk k) (String.mk v) := rfl

theorem memStep_quote (rest : List Char) :
    memStep ('"' :: rest)
      = match parseStr rest with
        | none => MemStep.fail
        | some kr => memColon kr.1 kr.2 := rfl

theorem memColon_colon (k r2 : List Char) :
    memColon k (':' :: '"' :: r2)
      = match parseStr r2 with
        | none => MemStep.fail
        | some vr => memVal k vr.1 vr.2 := rfl

theorem encPair_cons (kv : String × String) (t : List Char) :
    encPair kv ++ t
      = '"' :: (kv.1.data ++ '"' :: (':' :: '"' :: (escapeJson kv.2.data ++ '"' :: t))) := by
  simp [encPair]

theorem memStep_encPair (kv : String × String) (hk : cleanKey kv.1 = true)
    (hv : okVal kv.2 = true) (t : List Char) :
    memStep (encPair kv ++ t) = memVal kv.1.data kv.2.data t := by
  have hk' : kv.1.data.all cleanKeyChar = true := hk
  have hv' : kv.2.data.all okValChar = true := hv
  have hk2 : ∀ c ∈ kv.1.data, cleanKeyChar c = true := List.all_eq_true.mp hk'
  have hv2 : ∀ c ∈ kv.2.data, okValChar c = true := List.all_eq_true.mp hv'
  rw [encPair_cons, memStep_quote, parseStr_raw kv.1.data hk2 _]
  dsimp only
  rw [memColon_colon, parseStr_escape kv.2.data hv2 t]

theorem parseMembers_encMembers (m : Pmap) : ∀ (fuel : Nat) (acc : Pmap),
    m ≠ [] →
    (∀ kv ∈ m, cleanKey kv.1 = true ∧ okVal kv.2 = true) →
    m.length ≤ fuel →
    parseMembers fuel (encMembers m) acc = some (overlay m acc) := by
  induction m with
  | nil => intro fuel acc hne _ _; exact absurd rfl hne
  | cons kv m ih =>
    intro fuel acc _ hclean hlen
    cases fuel with
    | zero => simp at hlen
    | succ f =>
      have hk := (hclean kv (List.mem_cons_self _ _)).1
      have hv := (hclean kv (List.mem_cons_self _ _)).2
      cases m with
      | nil =>
        have hstep : memStep (encMembers [kv]) = MemStep.done kv.1 kv.2 := by
          rw [show encMembers [kv] = encPair kv ++ ['\x7d'] from rfl,
            memStep_encPair kv hk hv ['\x7d'], memVal_brace,
            string_mk_data, string_mk_data]
        rw [parseMembers_done f _ _ _ acc hstep]
        rfl
      | cons kv2 m2 =>
        have hstep : memStep (encMembers (kv :: kv2 :: m2))
            = MemStep.more kv.1 kv.2 (encMembers (kv2 :: m2)) := by
          rw [show encMembers (kv :: kv2 :: m2)
                = encPair kv ++ ',' :: encMembers (kv2 :: m2) from rfl,
            memStep_encPair kv hk hv _, memVal_comma,
            string_mk_data, string_mk_data]
        rw [parseMembers_more f _ _ _ _ acc hstep]
        rw [ih f (pinsert kv.1 kv.2 acc) (by intro h; cases h)
          (fun kv' h' => hclean kv' (List.mem_cons_of_mem _ h'))
          (by simp only [List.length_cons] at hlen ⊢; omega)]
        rfl

theorem encMembers_length (m : Pmap) : m.length ≤ (encMembers m).length := by
  induction m with
  | nil => simp [encMembers]
  | cons kv m ih =>
    cases m with
    | nil => simp [encMembers, encPair]
    | cons kv2 m2 =>
      rw [show encMembers (kv :: kv2 :: m2)
            = encPair kv ++ ',' :: encMembers (kv2 :: m2) from rfl]
      simp only [List.length_cons, List.length_append] at ih ⊢
      omega

theorem pinsert_append_gt (k v : String) (acc : Pmap)
    (h : ∀ kv ∈ acc, keyLt kv.1 k = true) :
    pinsert k v acc = acc ++ [(k, v)] := by
  induction acc with
  | nil => rfl
  | cons kv2 acc ih =>
    have h2 : keyLt kv2.1 k = true := h kv2 (List.mem_cons_self _ _)
    have hnlt : ¬ keyLt k kv2.1 = true := by
      intro hlt
      exact keyLt_irrefl k (keyLt_trans hlt h2)
    have hne : ¬ k = kv2.1 := fun heq => keyLt_ne h2 heq.symm
    simp only [pinsert]
    rw [if_neg hnlt, if_neg hne,
      ih (fun kv' h' => h kv' (List.mem_cons_of_mem _ h'))]
    rfl

theorem overlay_sorted (m : Pmap) : ∀ acc, Psorted (acc ++ m) → overlay m acc = acc ++ m := by
  induction m with
  | nil => intro acc _; simp [overlay]
  | cons kv m ih =>
    intro acc hs
    have h1 : ∀ x ∈ acc, keyLt x.1 kv.1 = true := by
      intro x hx
      exact (List.pairwise_append.mp hs).2.2 x hx kv (List.mem_cons_self _ _)
    have h2 : overlay (kv :: m) acc = overlay m (pinsert kv.1 kv.2 acc) := rfl
    rw [h2, pinsert_append_gt kv.1 kv.2 acc h1,
      show acc ++ [(kv.1, kv.2)] = acc ++ [kv] by rw [Prod.mk.eta],
      ih (acc ++ [kv]) (by rw [List.append_assoc]; exact hs),
      List.append_assoc]
    rfl

theorem encMembers_cons_quote (kv : String × String) (m : Pmap) :
    ∃ t, encMembers (kv :: m) = '"' :: t := by
  cases m with
  | nil =>
    refine ⟨kv.1.data ++ '"' :: (':' :: '"' :: (escapeJson kv.2.data ++ '"' :: ['\x7d'])), ?_⟩
    rw [show encMembers [kv] = encPair kv ++ ['\x7d'] from rfl, encPair_cons]
  | cons kv2 m2 =>
    refine ⟨kv.1.data ++ '"' :: (':' :: '"' ::
      (escapeJson kv.2.data ++ '"' :: (',' :: encMembers (kv2 :: m2)))), ?_⟩
    rw [show encMembers (kv :: kv2 :: m2)
          = encPair kv ++ ',' :: encMembers (kv2 :: m2) from rfl, encPair_cons]

theorem jsonLoadObj_mk_quote (l : List Char) :
    jsonLoadObj (String.mk ('\x7b' :: '"' :: l))
      = match parseMembers ('"' :: l).length ('"' :: l) [] with
        | none => Except.error CtxError.parseError
        | some m => Except.ok m := rfl

theorem decodeProvides_encodeProvides (m : Pmap) (hs : Psorted m)
    (hres : ∀ kv ∈ m, nonReservedKey kv.1 = true)
    (hclean : ∀ kv ∈ m, cleanKey kv.1 = true ∧ okVal kv.2 = true) :
    decodeProvides (encodeProvides m) = Except.ok m := by
  cases m with
  | nil => decide
  | cons kv m' =>
    have hfilter : (kv :: m').filter (fun x => nonReservedKey x.1) = kv :: m' :=
      List.filter_eq_self.mpr (fun a ha => hres a ha)
    have henc : encodeProvidesL (kv :: m') = '\x7b' :: encMembers (kv :: m') := by
      rw [encodeProvidesL_members _ (by rw [hfilter]; intro h; cases h), hfilter]
    obtain ⟨t, ht⟩ := encMembers_cons_quote kv m'
    have hsmk : encodeProvides (kv :: m') = String.mk ('\x7b' :: '"' :: t) := by
      rw [encodeProvides, henc, ht]
    have hne : encodeProvides (kv :: m') ≠ "" := by
      rw [hsmk]
      intro h
      exact List.cons_ne_nil _ _ (String.ext_iff.mp h)
    unfold decodeProvides
    rw [if_neg hne, hsmk, jsonLoadObj_mk_quote]
    have hpm : parseMembers ('"' :: t).length ('"' :: t) [] = some (overlay (kv :: m') []) := by
      rw [← ht]
      exact parseMembers_encMembers (kv :: m') _ [] (by intro h; cases h) hclean
        (encMembers_length (kv :: m'))
    rw [hpm, overlay_sorted (kv :: m') [] hs]
    rfl

/-- C7: counterexample.  The mapping with the single non-reserved key
consisting of the letter k followed by a quote does not survive the encode
and decode round trip: the blob builder emits the key characters raw into
the JSON text (context.cpp line 333), so the quote inside the key closes
the key string early, the decoder then finds a second quote where the colon
should be, and decoding the encoded blob reports a parse error instead of
returning the mapping. -/
theorem c7_counterexample :
    (∀ kv ∈ [("k\"", "v")], nonReservedKey kv.1 = true) ∧
    decodeProvides (encodeProvides [("k\"", "v")]) ≠ Except.ok [("k\"", "v")] ∧
    decodeProvides (encodeProvides [("k\"", "v")]) = Except.error CtxError.parseError := by
  decide

/-- C7: amended round trip.  For every sorted mapping without the two
reserved keys whose keys contain no quote, backslash or control character
and whose values stay inside the fragment the escaping covers (no control
characters other than newline, carriage return and tab), decoding the
encoded provides blob yields the mapping back exactly, values with
characters requiring JSON escaping included; and the empty mapping encodes
to the empty string rather than to a two-character empty object. -/
theorem c7_roundtrip_amended (m : Pmap) (hs : Psorted m)
    (hres : ∀ kv ∈ m, nonReservedKey kv.1 = true)
    (hclean : ∀ kv ∈ m, cleanKey kv.1 = true ∧ okVal kv.2 = true) :
    decodeProvides (encodeProvides m) = Except.ok m ∧ encodeProvides [] = "" :=
  ⟨decodeProvides_encodeProvides m hs hres hclean, by decide⟩

/-- C7: witness for the amended round trip, on a two-member mapping whose
second value contains a quote, a backslash and a newline. -/
theorem c7_roundtrip_amended_witness :
    decodeProvides (encodeProvides [("k1", "v\"\\\n"), ("k2", "plain")])
        = Except.ok [("k1", "v\"\\\n"), ("k2", "plain")] ∧ encodeProvides [] = "" :=
  c7_roundtrip_amended [("k1", "v\"\\\n"), ("k2", "plain")]
    (by decide) (by decide) (by decide)

/-- C9 counterexample, evaluated: committing the same arguments twice onto a
store whose provides blob holds a key containing quote-colon-quote material
yields two different final stores, because the raw-key re-encoding of the
first run changes where the member boundaries of the blob fall. -/
theorem c9_counterexample :
    (commitArtifactData
        (commitArtifactData
          [("artifact-name", "nm"),
           ("artifact-provides", "\x7b\"c\\\":\\\"v\\\",\\\"a\":\"b\"\x7d")]
          "nm" "" none (some ["zzz"]) Except.ok).1
        "nm" "" none (some ["zzz"]) Except.ok).1
      ≠ (commitArtifactData
          [("artifact-name", "nm"),
           ("artifact-provides", "\x7b\"c\\\":\\\"v\\\",\\\"a\":\"b\"\x7d")]
          "nm" "" none (some ["zzz"]) Except.ok).1 := by
  decide

theorem psorted_parseMembers : ∀ (fuel : Nat) (l : List Char) (acc m : Pmap),
    Psorted acc → parseMembers fuel l acc = some m → Psorted m := by
  intro fuel
  induction fuel with
  | zero =>
    intro l acc m _ h
    exact Option.noConfusion (show (none : Option Pmap) = some m from h)
  | succ f ih =>
    intro l acc m hacc h
    rw [parseMembers_succ_eq] at h
    cases hs : memStep l with
    | fail =>
      rw [hs] at h
      exact Option.noConfusion (show (none : Option Pmap) = some m from h)
    | done k v =>
      rw [hs] at h
      have h2 : some (pinsert k v acc) = some m := h
      rw [← Option.some.inj h2]
      exact psorted_pinsert k v acc hacc
    | more k v r =>
      rw [hs] at h
      exact ih r (pinsert k v acc) m (psorted_pinsert k v acc hacc) h

theorem psorted_jsonLoadObj (s : String) (m : Pmap) (h : jsonLoadObj s = .ok m) :
    Psorted m := by
  unfold jsonLoadObj at h
  split at h
  · split at h
    · rw [← Except.ok.inj h]
      exact List.Pairwise.nil
    · split at h
      · cases h
      · rename_i m' hm'
        rw [← Except.ok.inj h]
        exact psorted_parseMembers _ _ [] m' List.Pairwise.nil hm'
  · cases h

theorem psorted_decodeProvides (s : String) (m : Pmap)
    (h : decodeProvides s = .ok m) : Psorted m := by
  unfold decodeProvides at h
  split at h
  · rw [← Except.ok.inj h]
    exact List.Pairwise.nil
  · exact psorted_jsonLoadObj s m h

/-- The reserved-record seeding of LoadProvides (context.cpp lines 158-164):
the non-empty artifact name and group records become the two reserved keys
of the starting map. -/
def seedMap (an ag : String) : Pmap :=
  if ag = "" then (if an = "" then [] else pinsert "artifact_name" an [])
  else pinsert "artifact_group" ag (if an = "" then [] else pinsert "artifact_name" an [])

theorem psorted_seedMap (an ag : String) : Psorted (seedMap an ag) := by
  unfold seedMap
  by_cases hag : ag = ""
  · rw [if_pos hag]
    by_cases han : an = ""
    · rw [if_pos han]; exact List.Pairwise.nil
    · rw [if_neg han]; exact psorted_pinsert _ _ _ List.Pairwise.nil
  · rw [if_neg hag]
    by_cases han : an = ""
    · rw [if_pos han]; exact psorted_pinsert _ _ _ List.Pairwise.nil
    · rw [if_neg han]
      exact psorted_pinsert _ _ _ (psorted_pinsert _ _ _ List.Pairwise.nil)

theorem loadProvides_eq (s : Store) :
    loadProvides s
      = match decodeProvides ((plookup artifact_provides_key s).getD "") with
        | Except.error e => Except.error e
        | Except.ok ch =>
          Except.ok (overlay ch (seedMap ((plookup artifact_name_key s).getD "")
            ((plookup artifact_group_key s).getD ""))) := by
  unfold loadProvides decodeProvides seedMap
  dsimp only
  by_cases haps : (plookup artifact_provides_key s).getD "" = ""
  · rw [if_pos haps]
    rw [if_pos haps]
    rfl
  · rw [if_neg haps]
    rw [if_neg haps]

theorem psorted_loadProvides (s : Store) (E : Pmap) (h : loadProvides s = .ok E) :
    Psorted E := by
  rw [loadProvides_eq] at h
  cases hd : decodeProvides ((plookup artifact_provides_key s).getD "") with
  | error e => rw [hd] at h; cases h
  | ok ch =>
    rw [hd] at h
    rw [← Except.ok.inj h]
    exact psorted_overlay ch _ (psorted_seedMap _ _)

theorem mem_overlay (a : String × String) : ∀ (np m : Pmap),
    a ∈ overlay np m → a ∈ np ∨ a ∈ m := by
  intro np
  induction np with
  | nil => intro m h; right; exact h
  | cons kv np ih =>
    intro m h
    rw [overlay_cons] at h
    rcases ih (pinsert kv.1 kv.2 m) h with h' | h'
    · left; exact List.mem_cons_of_mem _ h'
    · rcases mem_pinsert a kv.1 kv.2 m h' with heq | h''
      · left; rw [heq, Prod.mk.eta]; exact List.mem_cons_self _ _
      · right; exact h''

theorem mem_pureFilter (a : String × String) (cs : List String) :
    ∀ (m F : Pmap), pureFilter cs m = .ok F → a ∈ F → a ∈ m := by
  induction cs with
  | nil =>
    intro m F h ha
    have h0 : pureFilter [] m = Except.ok m := rfl
    rw [h0] at h
    rw [Except.ok.inj h]
    exact ha
  | cons pat cs ih =>
    intro m F h ha
    unfold pureFilter at h
    rw [List.foldlM_cons] at h
    match hf : filterOne m pat with
    | .error e => rw [hf] at h; cases h
    | .ok m1 =>
      rw [hf] at h
      have h2 : pureFilter cs m1 = .ok F := h
      have ham1 : a ∈ m1 := ih m1 F h2 ha
      unfold filterOne at hf
      match hc : compileBRE (escapeGlob pat.data) with
      | none => rw [hc] at hf; cases hf
      | some atoms =>
        rw [hc] at hf
        have hm1 : m1 = m.filter (fun kv => ! ratomsMatch atoms kv.1.data) :=
          (Except.ok.inj hf).symm
        rw [hm1] at ham1
        exact (List.mem_filter.mp ham1).1

theorem mem_mergedMap (a : String × String) (E M : Pmap) (np : Option Pmap)
    (cp : Option (List String)) (h : mergedMap E np cp = .ok M) (ha : a ∈ M) :
    a ∈ np.getD [] ∨ a ∈ E := by
  cases np with
  | none =>
    cases cp with
    | none =>
      have h0 : M = [] := (Except.ok.inj (show Except.ok [] = Except.ok M from h)).symm
      rw [h0] at ha; cases ha
    | some cs =>
      have h1 : filterProvides [] cs E = .ok M := h
      unfold filterProvides at h1
      cases hP : pureFilter cs E with
      | error e => rw [hP] at h1; cases h1
      | ok P =>
        rw [hP] at h1
        have hM : M = overlay [] P := (Except.ok.inj h1).symm
        rw [hM, overlay_nil] at ha
        right
        exact mem_pureFilter a cs E P hP ha
  | some n =>
    cases cp with
    | none =>
      have h0 : M = n := (Except.ok.inj (show Except.ok n = Except.ok M from h)).symm
      left; rw [← h0]; exact ha
    | some cs =>
      have h1 : filterProvides n cs E = .ok M := h
      unfold filterProvides at h1
      cases hP : pureFilter cs E with
      | error e => rw [hP] at h1; cases h1
      | ok P =>
        rw [hP] at h1
        have hM : M = overlay n P := (Except.ok.inj h1).symm
        rw [hM] at ha
        rcases mem_overlay a n P ha with h' | h'
        · left; exact h'
        · right; exact mem_pureFilter a cs E P hP h'

theorem mem_applyArgs (a : String × String) (an ag : String) (m : Pmap)
    (h : a ∈ applyArgs an ag m) :
    a ∈ m ∨ a.1 = "artifact_name" ∨ a.1 = "artifact_group" := by
  unfold applyArgs at h
  dsimp only at h
  by_cases hag : ag = ""
  · rw [if_pos hag] at h
    by_cases han : an = ""
    · rw [if_pos han] at h; left; exact h
    · rw [if_neg han] at h
      rcases mem_pinsert a _ _ _ h with heq | h'
      · right; left; rw [heq]
      · left; exact h'
  · rw [if_neg hag] at h
    rcases mem_pinsert a _ _ _ h with heq | h'
    · right; right; rw [heq]
    · by_cases han : an = ""
      · rw [if_pos han] at h'; left; exact h'
      · rw [if_neg han] at h'
        rcases mem_pinsert a _ _ _ h' with heq | h''
        · right; left; rw [heq]
        · left; exact h''

theorem mem_seedMap (a : String × String) (an ag : String)
    (h : a ∈ seedMap an ag) :
    a.1 = "artifact_name" ∨ a.1 = "artifact_group" := by
  unfold seedMap at h
  by_cases hag : ag = ""
  · rw [if_pos hag] at h
    by_cases han : an = ""
    · rw [if_pos han] at h; cases h
    · rw [if_neg han] at h
      rcases mem_pinsert a _ _ _ h with heq | h'
      · left; rw [heq]
      · cases h'
  · rw [if_neg hag] at h
    rcases mem_pinsert a _ _ _ h with heq | h'
    · right; rw [heq]
    · by_cases han : an = ""
      · rw [if_pos han] at h'; cases h'
      · rw [if_neg han] at h'
        rcases mem_pinsert a _ _ _ h' with heq | h''
        · left; rw [heq]
        · cases h''

theorem pureFilter_compiles (cs : List String) (m F : Pmap)
    (h : pureFilter cs m = .ok F) :
    ∀ pat ∈ cs, (compiledOf pat).isSome := by
  intro pat hmem
  by_contra hns
  have hnone : compiledOf pat = none := Option.not_isSome_iff_eq_none.mp hns
  rw [pureFilter_err cs pat hmem hnone m] at h
  cases h

theorem psorted_pureFilter (cs : List String) :
    ∀ (m F : Pmap), Psorted m → pureFilter cs m = .ok F → Psorted F := by
  induction cs with
  | nil =>
    intro m F hm h
    have h0 : pureFilter [] m = Except.ok m := rfl
    rw [h0] at h
    rw [← Except.ok.inj h]
    exact hm
  | cons pat cs ih =>
    intro m F hm h
    unfold pureFilter at h
    rw [List.foldlM_cons] at h
    match hf : filterOne m pat with
    | .error e => rw [hf] at h; cases h
    | .ok m1 =>
      rw [hf] at h
      have h2 : pureFilter cs m1 = .ok F := h
      unfold filterOne at hf
      match hc : compileBRE (escapeGlob pat.data) with
      | none => rw [hc] at hf; cases hf
      | some atoms =>
        rw [hc] at hf
        have hm1 : m1 = m.filter (fun kv => ! ratomsMatch atoms kv.1.data) :=
          (Except.ok.inj hf).symm
        exact ih m1 F (hm1 ▸ psorted_filter _ m hm) h2

theorem psorted_mergedMap (E M : Pmap) (np : Option Pmap)
    (cp : Option (List String)) (hE : Psorted E) (hnp : Psorted (np.getD []))
    (h : mergedMap E np cp = .ok M) : Psorted M := by
  cases np with
  | none =>
    cases cp with
    | none =>
      rw [← Except.ok.inj (show Except.ok [] = Except.ok M from h)]
      exact List.Pairwise.nil
    | some cs =>
      have h1 : filterProvides [] cs E = .ok M := h
      unfold filterProvides at h1
      cases hP : pureFilter cs E with
      | error e => rw [hP] at h1; cases h1
      | ok P =>
        rw [hP] at h1
        rw [← Except.ok.inj h1, overlay_nil]
        exact psorted_pureFilter cs E P hE hP
  | some n =>
    cases cp with
    | none =>
      rw [← Except.ok.inj (show Except.ok n = Except.ok M from h)]
      exact hnp
    | some cs =>
      have h1 : filterProvides n cs E = .ok M := h
      unfold filterProvides at h1
      cases hP : pureFilter cs E with
      | error e => rw [hP] at h1; cases h1
      | ok P =>
        rw [hP] at h1
        rw [← Except.ok.inj h1]
        exact psorted_overlay n P (psorted_pureFilter cs E P hE hP)

theorem psorted_applyArgs (an ag : String) (m : Pmap) (hm : Psorted m) :
    Psorted (applyArgs an ag m) := by
  unfold applyArgs
  dsimp only
  by_cases hag : ag = ""
  · rw [if_pos hag]
    by_cases han : an = ""
    · rw [if_pos han]; exact hm
    · rw [if_neg han]; exact psorted_pinsert _ _ _ hm
  · rw [if_neg hag]
    by_cases han : an = ""
    · rw [if_pos han]; exact psorted_pinsert _ _ _ hm
    · rw [if_neg han]; exact psorted_pinsert _ _ _ (psorted_pinsert _ _ _ hm)

theorem seedMap_name (an ag : String) :
    plookup "artifact_name" (seedMap an ag) = if an = "" then none else some an := by
  unfold seedMap
  by_cases hag : ag = ""
  · rw [if_pos hag]
    by_cases han : an = ""
    · rw [if_pos han, if_pos han]; rfl
    · rw [if_neg han, if_neg han, plookup_pinsert_self]
  · rw [if_neg hag, plookup_pinsert_ne _ _ _ _ (by decide)]
    by_cases han : an = ""
    · rw [if_pos han, if_pos han]; rfl
    · rw [if_neg han, if_neg han, plookup_pinsert_self]

theorem seedMap_group (an ag : String) :
    plookup "artifact_group" (seedMap an ag) = if ag = "" then none else some ag := by
  unfold seedMap
  by_cases hag : ag = ""
  · rw [if_pos hag, if_pos hag]
    by_cases han : an = ""
    · rw [if_pos han]; rfl
    · rw [if_neg han, plookup_pinsert_ne _ _ _ _ (by decide)]; rfl
  · rw [if_neg hag, if_neg hag, plookup_pinsert_self]

theorem seedMap_other (an ag k : String) (h1 : k ≠ "artifact_name")
    (h2 : k ≠ "artifact_group") :
    plookup k (seedMap an ag) = none := by
  unfold seedMap
  by_cases hag : ag = ""
  · rw [if_pos hag]
    by_cases han : an = ""
    · rw [if_pos han]; rfl
    · rw [if_neg han, plookup_pinsert_ne _ _ _ _ h1]; rfl
  · rw [if_neg hag, plookup_pinsert_ne _ _ _ _ h2]
    by_cases han : an = ""
    · rw [if_pos han]; rfl
    · rw [if_neg han, plookup_pinsert_ne _ _ _ _ h1]; rfl

theorem applyArgs_name_lookup (an ag : String) (m : Pmap) :
    plookup "artifact_name" (applyArgs an ag m)
      = if an = "" then plookup "artifact_name" m else some an := by
  by_cases han : an = ""
  · rw [if_pos han]
    unfold applyArgs
    dsimp only
    rw [if_pos han]
    by_cases hag : ag = ""
    · rw [if_pos hag]
    · rw [if_neg hag, plookup_pinsert_ne _ _ _ _ (by decide)]
  · rw [if_neg han]
    exact applyArgs_name an ag han m

theorem applyArgs_group_lookup (an ag : String) (m : Pmap) :
    plookup "artifact_group" (applyArgs an ag m)
      = if ag = "" then plookup "artifact_group" m else some ag := by
  by_cases hag : ag = ""
  · rw [if_pos hag]
    unfold applyArgs
    dsimp only
    rw [if_pos hag]
    by_cases han : an = ""
    · rw [if_pos han]
    · rw [if_neg han, plookup_pinsert_ne _ _ _ _ (by decide)]
  · rw [if_neg hag]
    exact applyArgs_group an ag hag m

theorem encodeProvides_nonres (m : Pmap) :
    encodeProvides (m.filter (fun kv => nonReservedKey kv.1)) = encodeProvides m := by
  have hff : (m.filter (fun kv => nonReservedKey kv.1)).filter
      (fun kv => nonReservedKey kv.1) = m.filter (fun kv => nonReservedKey kv.1) :=
    List.filter_eq_self.mpr (fun a ha => (List.mem_filter.mp ha).2)
  unfold encodeProvides encodeProvidesL
  rw [foldl_encStep, foldl_encStep, hff]

theorem encodeProvides_empty_iff (m : Pmap) :
    encodeProvides m = "" ↔ m.filter (fun kv => nonReservedKey kv.1) = [] := by
  constructor
  · intro h
    by_contra hne
    rw [encodeProvides, encodeProvidesL_members m hne] at h
    exact List.cons_ne_nil _ _ (String.ext_iff.mp h)
  · intro h
    rw [encodeProvides, encodeProvidesL_empty m h]

theorem filter_eq_nil_of_lookup_none (q : String → Bool) (m : Pmap) (hs : Psorted m)
    (h : ∀ k, plookup k (m.filter (fun kv => q kv.1)) = none) :
    m.filter (fun kv => q kv.1) = [] :=
  pext _ [] (psorted_filter _ m hs) List.Pairwise.nil (fun k => by rw [h k]; rfl)

/-- The record writes of CommitArtifactData (context.cpp lines 346-375):
overwrite the artifact name record, write or remove the group record, and
overwrite the provides record when the encoded blob is non-empty, the
written values all coming from the final merged map. -/
def writeRecords (s : Store) (m : Pmap) : Store :=
  let blob := encodeProvides m
  let nameVal := (plookup "artifact_name" m).getD ""
  let gVal := (plookup "artifact_group" m).getD ""
  let s1 := pinsert artifact_name_key nameVal s
  let s2 := if gVal = "" then perase artifact_group_key s1
            else pinsert artifact_group_key gVal s1
  if blob = "" then s2 else pinsert artifact_provides_key blob s2

theorem psorted_writeRecords (s : Store) (m : Pmap) (hs : Psorted s) :
    Psorted (writeRecords s m) := by
  unfold writeRecords
  dsimp only
  have h1 : Psorted (pinsert artifact_name_key ((plookup "artifact_name" m).getD "") s) :=
    psorted_pinsert _ _ _ hs
  by_cases hg : (plookup "artifact_group" m).getD "" = ""
  · rw [if_pos hg]
    by_cases hb : encodeProvides m = ""
    · rw [if_pos hb]; exact psorted_perase _ _ h1
    · rw [if_neg hb]; exact psorted_pinsert _ _ _ (psorted_perase _ _ h1)
  · rw [if_neg hg]
    by_cases hb : encodeProvides m = ""
    · rw [if_pos hb]; exact psorted_pinsert _ _ _ h1
    · rw [if_neg hb]; exact psorted_pinsert _ _ _ (psorted_pinsert _ _ _ h1)

theorem writeRecords_name (s : Store) (m : Pmap) :
    plookup artifact_name_key (writeRecords s m)
      = some ((plookup "artifact_name" m).getD "") := by
  unfold writeRecords
  dsimp only
  by_cases hb : encodeProvides m = ""
  · rw [if_pos hb]
    by_cases hg : (plookup "artifact_group" m).getD "" = ""
    · rw [if_pos hg, plookup_perase_ne _ _ _ (by decide), plookup_pinsert_self]
    · rw [if_neg hg, plookup_pinsert_ne _ _ _ _ (by decide), plookup_pinsert_self]
  · rw [if_neg hb, plookup_pinsert_ne _ _ _ _ (by decide)]
    by_cases hg : (plookup "artifact_group" m).getD "" = ""
    · rw [if_pos hg, plookup_perase_ne _ _ _ (by decide), plookup_pinsert_self]
    · rw [if_neg hg, plookup_pinsert_ne _ _ _ _ (by decide), plookup_pinsert_self]

theorem writeRecords_group (s : Store) (m : Pmap) (hs : Psorted s) :
    plookup artifact_group_key (writeRecords s m)
      = (if (plookup "artifact_group" m).getD "" = "" then none
         else some ((plookup "artifact_group" m).getD "")) := by
  unfold writeRecords
  dsimp only
  have h1 : Psorted (pinsert artifact_name_key ((plookup "artifact_name" m).getD "") s) :=
    psorted_pinsert _ _ _ hs
  by_cases hb : encodeProvides m = ""
  · rw [if_pos hb]
    by_cases hg : (plookup "artifact_group" m).getD "" = ""
    · rw [if_pos hg, if_pos hg, plookup_perase_self _ _ h1]
    · rw [if_neg hg, if_neg hg, plookup_pinsert_self]
  · rw [if_neg hb, plookup_pinsert_ne _ _ _ _ (by decide)]
    by_cases hg : (plookup "artifact_group" m).getD "" = ""
    · rw [if_pos hg, if_pos hg, plookup_perase_self _ _ h1]
    · rw [if_neg hg, if_neg hg, plookup_pinsert_self]

theorem writeRecords_provides (s : Store) (m : Pmap) :
    plookup artifact_provides_key (writeRecords s m)
      = (if encodeProvides m = "" then plookup artifact_provides_key s
         else some (encodeProvides m)) := by
  unfold writeRecords
  dsimp only
  by_cases hb : encodeProvides m = ""
  · rw [if_pos hb, if_pos hb]
    by_cases hg : (plookup "artifact_group" m).getD "" = ""
    · rw [if_pos hg, plookup_perase_ne _ _ _ (by decide),
        plookup_pinsert_ne _ _ _ _ (by decide)]
    · rw [if_neg hg, plookup_pinsert_ne _ _ _ _ (by decide),
        plookup_pinsert_ne _ _ _ _ (by decide)]
  · rw [if_neg hb, if_neg hb, plookup_pinsert_self]

theorem writeRecords_eq_self (st : Store) (m : Pmap) (hst : Psorted st)
    (h1 : plookup artifact_name_key st = some ((plookup "artifact_name" m).getD ""))
    (h2 : plookup artifact_group_key st
      = (if (plookup "artifact_group" m).getD "" = "" then none
         else some ((plookup "artifact_group" m).getD "")))
    (h3 : encodeProvides m = "" ∨
      plookup artifact_provides_key st = some (encodeProvides m)) :
    writeRecords st m = st := by
  unfold writeRecords
  dsimp only
  rw [pinsert_eq_self_of_lookup _ _ _ hst h1]
  by_cases hg : (plookup "artifact_group" m).getD "" = ""
  · rw [if_pos hg]
    rw [perase_eq_self_of_lookup_none _ _ (by rw [h2, if_pos hg])]
    by_cases hb : encodeProvides m = ""
    · rw [if_pos hb]
    · rw [if_neg hb]
      rcases h3 with h3 | h3
      · exact absurd h3 hb
      · exact pinsert_eq_self_of_lookup _ _ _ hst h3
  · rw [if_neg hg]
    rw [pinsert_eq_self_of_lookup _ _ _ hst (by rw [h2, if_neg hg])]
    by_cases hb : encodeProvides m = ""
    · rw [if_pos hb]
    · rw [if_neg hb]
      rcases h3 with h3 | h3
      · exact absurd h3 hb
      · exact pinsert_eq_self_of_lookup _ _ _ hst h3

theorem commitBody_ok_eq (s : Store) (an ag : String) (np : Option Pmap)
    (cp : Option (List String)) :
    commitBody s an ag np cp Except.ok
      = match loadProvides s with
        | Except.error e => Except.error e
        | Except.ok E =>
          match mergedMap E np cp with
          | Except.error e => Except.error e
          | Except.ok M0 =>
            if (plookup "artifact_name" (applyArgs an ag M0)).getD "" = ""
            then Except.error CtxError.assertError
            else Except.ok (writeRecords s (applyArgs an ag M0)) := by
  unfold commitBody writeRecords
  cases hL : loadProvides s with
  | error e => rfl
  | ok E => dsimp only

theorem ofirst_none_left (b : Option String) : ofirst none b = b := rfl

theorem ofirst_none_right (a : Option String) : ofirst a none = a := by
  cases a <;> rfl

theorem nonReservedKey_iff (k : String) :
    nonReservedKey k = true ↔ (k ≠ "artifact_name" ∧ k ≠ "artifact_group") := by
  simp [nonReservedKey]

theorem mergedMap_some_cs (E : Pmap) (np : Option Pmap) (cs : List String) :
    mergedMap E np (some cs) = filterProvides (np.getD []) cs E := by
  cases np <;> rfl

theorem filterProvides_lookup (E M n0 : Pmap) (cs : List String) (hn0 : Psorted n0)
    (h : filterProvides n0 cs E = .ok M) (k : String) :
    plookup k M = ofirst (plookup k n0)
      (if cs.any (fun pat => patMatches pat k) then none else plookup k E) := by
  unfold filterProvides at h
  cases hP : pureFilter cs E with
  | error e => rw [hP] at h; cases h
  | ok P =>
    rw [hP] at h
    have hM : M = overlay n0 P := (Except.ok.inj h).symm
    have hcomp := pureFilter_compiles cs E P hP
    have hPval := pureFilter_ok cs hcomp E
    rw [hP] at hPval
    have hPf : P = E.filter (fun kv => ! cs.any (fun pat => patMatches pat kv.1)) :=
      Except.ok.inj hPval
    rw [hM, plookup_overlay k n0 hn0, hPf,
      plookup_filter (fun x => ! cs.any (fun pat => patMatches pat x)) k E]
    rcases Bool.eq_false_or_eq_true (cs.any (fun pat => patMatches pat k)) with hk | hk
    · rw [hk]; simp
    · rw [hk]; simp

theorem second_merge_records (an ag : String) (np : Option Pmap)
    (cp : Option (List String)) (E1 M1 E2 M2 ch2 : Pmap) (sn sg : String)
    (hnp : Psorted (np.getD []))
    (hm1s : Psorted (applyArgs an ag M1))
    (hm2s : Psorted (applyArgs an ag M2))
    (hM1 : mergedMap E1 np cp = .ok M1)
    (hM2 : mergedMap E2 np cp = .ok M2)
    (hE2 : ∀ k, plookup k E2 = ofirst (plookup k ch2)
        (plookup k (seedMap ((plookup "artifact_name" (applyArgs an ag M1)).getD "")
          ((plookup "artifact_group" (applyArgs an ag M1)).getD ""))))
    (hnv1 : ¬ (plookup "artifact_name" (applyArgs an ag M1)).getD "" = "")
    (hcase :
      (∀ k, plookup k ch2
          = plookup k ((applyArgs an ag M1).filter (fun kv => nonReservedKey kv.1)))
      ∨ (encodeProvides (applyArgs an ag M1) = "" ∧
         ∀ k, plookup k E1 = ofirst (plookup k ch2) (plookup k (seedMap sn sg)))) :
    ((plookup "artifact_name" (applyArgs an ag M2)).getD ""
        = (plookup "artifact_name" (applyArgs an ag M1)).getD "") ∧
    ((plookup "artifact_group" (applyArgs an ag M2)).getD ""
        = (plookup "artifact_group" (applyArgs an ag M1)).getD "") ∧
    encodeProvides (applyArgs an ag M2) = encodeProvides (applyArgs an ag M1) := by
  cases cp with
  | none =>
    have hMM : M1 = M2 := by
      cases np with
      | none =>
        have e1 : M1 = [] :=
          (Except.ok.inj (show Except.ok [] = Except.ok M1 from hM1)).symm
        have e2 : M2 = [] :=
          (Except.ok.inj (show Except.ok [] = Except.ok M2 from hM2)).symm
        rw [e1, e2]
      | some n =>
        have e1 : M1 = n :=
          (Except.ok.inj (show Except.ok n = Except.ok M1 from hM1)).symm
        have e2 : M2 = n :=
          (Except.ok.inj (show Except.ok n = Except.ok M2 from hM2)).symm
        rw [e1, e2]
    rw [hMM]
    exact ⟨rfl, rfl, rfl⟩
  | some cs =>
    have hl1 : ∀ k, plookup k M1 = ofirst (plookup k (np.getD []))
        (if cs.any (fun pat => patMatches pat k) then none else plookup k E1) :=
      fun k => filterProvides_lookup E1 M1 (np.getD []) cs hnp
        (by rw [← mergedMap_some_cs E1 np cs]; exact hM1) k
    have hl2 : ∀ k, plookup k M2 = ofirst (plookup k (np.getD []))
        (if cs.any (fun pat => patMatches pat k) then none else plookup k E2) :=
      fun k => filterProvides_lookup E2 M2 (np.getD []) cs hnp
        (by rw [← mergedMap_some_cs E2 np cs]; exact hM2) k
    have hker : ∀ k, nonReservedKey k = true → plookup k M2 = plookup k M1 := by
      intro k hk
      obtain ⟨hkn, hkg⟩ := (nonReservedKey_iff k).mp hk
      rw [hl1 k, hl2 k]
      cases hn0k : plookup k (np.getD []) with
      | some y => rfl
      | none =>
        by_cases hmk : cs.any (fun pat => patMatches pat k) = true
        · rw [if_pos hmk, if_pos hmk]
        · rw [if_neg hmk, if_neg hmk, ofirst_none_left, ofirst_none_left]
          rw [hE2 k, seedMap_other _ _ k hkn hkg, ofirst_none_right]
          rcases hcase with hA | ⟨hb1, hB⟩
          · rw [hA k, plookup_filter nonReservedKey k (applyArgs an ag M1), if_pos hk,
              applyArgs_other an ag k hkn hkg M1, hl1 k, hn0k, ofirst_none_left,
              if_neg hmk]
          · rw [hB k, seedMap_other sn sg k hkn hkg, ofirst_none_right]
    have hname : (plookup "artifact_name" (applyArgs an ag M2)).getD ""
        = (plookup "artifact_name" (applyArgs an ag M1)).getD "" := by
      rw [applyArgs_name_lookup an ag M2, applyArgs_name_lookup an ag M1]
      by_cases han : an = ""
      · rw [if_pos han, if_pos han]
        rw [hl2 "artifact_name", hl1 "artifact_name"]
        cases hn0 : plookup "artifact_name" (np.getD []) with
        | some y => rfl
        | none =>
          by_cases hmk : cs.any (fun pat => patMatches pat "artifact_name") = true
          · rw [if_pos hmk, if_pos hmk]
          · rw [if_neg hmk, if_neg hmk, ofirst_none_left, ofirst_none_left]
            have hnv1E : (plookup "artifact_name" (applyArgs an ag M1)).getD ""
                = (plookup "artifact_name" E1).getD "" := by
              rw [applyArgs_name_lookup, if_pos han, hl1 "artifact_name", hn0,
                ofirst_none_left, if_neg hmk]
            rw [hE2 "artifact_name", seedMap_name, if_neg hnv1]
            rcases hcase with hA | ⟨hb1, hB⟩
            · rw [hA "artifact_name",
                plookup_filter nonReservedKey "artifact_name" (applyArgs an ag M1),
                if_neg (by decide)]
              exact hnv1E
            · cases hc2 : plookup "artifact_name" ch2 with
              | some y =>
                rw [hB "artifact_name", hc2]
                rfl
              | none =>
                exact hnv1E
      · rw [if_neg han, if_neg han]
    have hgroup : (plookup "artifact_group" (applyArgs an ag M2)).getD ""
        = (plookup "artifact_group" (applyArgs an ag M1)).getD "" := by
      rw [applyArgs_group_lookup an ag M2, applyArgs_group_lookup an ag M1]
      by_cases hag : ag = ""
      · rw [if_pos hag, if_pos hag]
        rw [hl2 "artifact_group", hl1 "artifact_group"]
        cases hn0 : plookup "artifact_group" (np.getD []) with
        | some y => rfl
        | none =>
          by_cases hmk : cs.any (fun pat => patMatches pat "artifact_group") = true
          · rw [if_pos hmk, if_pos hmk]
          · rw [if_neg hmk, if_neg hmk, ofirst_none_left, ofirst_none_left]
            have hgv1E : (plookup "artifact_group" (applyArgs an ag M1)).getD ""
                = (plookup "artifact_group" E1).getD "" := by
              rw [applyArgs_group_lookup, if_pos hag, hl1 "artifact_group", hn0,
                ofirst_none_left, if_neg hmk]
            rw [hE2 "artifact_group", seedMap_group]
            rcases hcase with hA | ⟨hb1, hB⟩
            · rw [hA "artifact_group",
                plookup_filter nonReservedKey "artifact_group" (applyArgs an ag M1),
                if_neg (by decide), ofirst_none_left]
              rw [← hgv1E]
              by_cases hgv : (plookup "artifact_group" (applyArgs an ag M1)).getD "" = ""
              · rw [if_pos hgv]
                exact hgv.symm
              · rw [if_neg hgv]
                rfl
            · cases hc2 : plookup "artifact_group" ch2 with
              | some y =>
                rw [hB "artifact_group", hc2]
                rfl
              | none =>
                rw [ofirst_none_left, ← hgv1E]
                by_cases hgv : (plookup "artifact_group" (applyArgs an ag M1)).getD "" = ""
                · rw [if_pos hgv]
                  exact hgv.symm
                · rw [if_neg hgv]
                  rfl
      · rw [if_neg hag, if_neg hag]
    have hfeq : (applyArgs an ag M2).filter (fun kv => nonReservedKey kv.1)
        = (applyArgs an ag M1).filter (fun kv => nonReservedKey kv.1) := by
      apply pext _ _ (psorted_filter _ _ hm2s) (psorted_filter _ _ hm1s)
      intro k
      rw [plookup_filter nonReservedKey k (applyArgs an ag M2),
        plookup_filter nonReservedKey k (applyArgs an ag M1)]
      by_cases hk : nonReservedKey k = true
      · obtain ⟨hkn, hkg⟩ := (nonReservedKey_iff k).mp hk
        rw [if_pos hk, if_pos hk, applyArgs_other an ag k hkn hkg M2,
          applyArgs_other an ag k hkn hkg M1, hker k hk]
      · rw [if_neg hk, if_neg hk]
    refine ⟨hname, hgroup, ?_⟩
    rw [← encodeProvides_nonres (applyArgs an ag M2), hfeq, encodeProvides_nonres]

theorem loadProvides_ok_cases (st : Store) (E : Pmap) (h : loadProvides st = .ok E) :
    ∃ ch, decodeProvides ((plookup artifact_provides_key st).getD "") = .ok ch ∧
      E = overlay ch (seedMap ((plookup artifact_name_key st).getD "")
        ((plookup artifact_group_key st).getD "")) := by
  rw [loadProvides_eq] at h
  cases hd : decodeProvides ((plookup artifact_provides_key st).getD "") with
  | error e =>
    rw [hd] at h
    exact Except.noConfusion (show Except.error e = Except.ok E from h)
  | ok ch =>
    rw [hd] at h
    exact ⟨ch, rfl, (Except.ok.inj (show Except.ok _ = Except.ok E from h)).symm⟩

theorem commitBody_ok_cases (st : Store) (an ag : String) (np : Option Pmap)
    (cp : Option (List String)) (r : Store)
    (h : commitBody st an ag np cp Except.ok = .ok r) :
    ∃ E M0, loadProvides st = .ok E ∧ mergedMap E np cp = .ok M0 ∧
      ¬ (plookup "artifact_name" (applyArgs an ag M0)).getD "" = "" ∧
      r = writeRecords st (applyArgs an ag M0) := by
  rw [commitBody_ok_eq] at h
  cases hL : loadProvides st with
  | error e =>
    rw [hL] at h
    exact Except.noConfusion (show Except.error e = Except.ok r from h)
  | ok E =>
    rw [hL] at h
    have hb : (match mergedMap E np cp with
        | Except.error e => Except.error e
        | Except.ok M0 =>
          if (plookup "artifact_name" (applyArgs an ag M0)).getD "" = ""
          then Except.error CtxError.assertError
          else Except.ok (writeRecords st (applyArgs an ag M0))) = Except.ok r := h
    cases hM : mergedMap E np cp with
    | error e =>
      rw [hM] at hb
      exact Except.noConfusion (show Except.error e = Except.ok r from hb)
    | ok M0 =>
      rw [hM] at hb
      have hc : (if (plookup "artifact_name" (applyArgs an ag M0)).getD "" = ""
          then Except.error CtxError.assertError
          else Except.ok (writeRecords st (applyArgs an ag M0))) = Except.ok r := hb
      by_cases hnv : (plookup "artifact_name" (applyArgs an ag M0)).getD "" = ""
      · rw [if_pos hnv] at hc
        exact Except.noConfusion hc
      · rw [if_neg hnv] at hc
        exact ⟨E, M0, rfl, hM, hnv, (Except.ok.inj hc).symm⟩

/-- C9: amended idempotence.  Committing the same argument tuple twice with
a trivially succeeding continuation leaves the durable store exactly as one
commit does, provided the keys that feed the hand-built blob are faithful
to its JSON syntax: the new provides entries and the entries decoded from
the store's provides blob must have keys free of quote, backslash and
control characters and values inside the fragment the escaping covers.
Without that proviso the raw-key encoding shifts member boundaries and a
second run reads back a different mapping, as the counterexample shows. -/
theorem c9_idempotent_amended (s : Store) (an ag : String) (np : Option Pmap)
    (cp : Option (List String)) (hss : Psorted s)
    (hnp : ∀ n, np = some n →
      Psorted n ∧ ∀ kv ∈ n, cleanKey kv.1 = true ∧ okVal kv.2 = true)
    (hch : ∀ ch,
      decodeProvides ((plookup artifact_provides_key s).getD "") = Except.ok ch →
      ∀ kv ∈ ch, cleanKey kv.1 = true ∧ okVal kv.2 = true) :
    (commitArtifactData (commitArtifactData s an ag np cp Except.ok).1
        an ag np cp Except.ok).1
      = (commitArtifactData s an ag np cp Except.ok).1 := by
  have hr1 : ∀ (st : Store), commitArtifactData st an ag np cp Except.ok
      = match commitBody st an ag np cp Except.ok with
        | .ok s2 => (s2, none)
        | .error e => (st, some e) := fun st => rfl
  have hnps : Psorted (np.getD []) := by
    cases np with
    | none => exact List.Pairwise.nil
    | some n => exact (hnp n rfl).1
  cases h1 : commitBody s an ag np cp Except.ok with
  | error e =>
    have hf1 : (commitArtifactData s an ag np cp Except.ok).1 = s := by
      rw [hr1, h1]
    rw [hf1]
    exact hf1
  | ok s3 =>
    have hf1 : (commitArtifactData s an ag np cp Except.ok).1 = s3 := by
      rw [hr1, h1]
    rw [hf1]
    obtain ⟨E1, M1, hL1, hM1, hnv1, hs3⟩ := commitBody_ok_cases s an ag np cp s3 h1
    obtain ⟨ch1, hd1, hE1eq⟩ := loadProvides_ok_cases s E1 hL1
    have hch1s : Psorted ch1 := psorted_decodeProvides _ ch1 hd1
    have hE1s : Psorted E1 := by
      rw [hE1eq]; exact psorted_overlay _ _ (psorted_seedMap _ _)
    have hM1s : Psorted M1 := psorted_mergedMap E1 M1 np cp hE1s hnps hM1
    have hm1s : Psorted (applyArgs an ag M1) := psorted_applyArgs an ag M1 hM1s
    have hcleanm1 : ∀ kv ∈ (applyArgs an ag M1).filter (fun kv => nonReservedKey kv.1),
        cleanKey kv.1 = true ∧ okVal kv.2 = true := by
      intro kv hkv
      obtain ⟨hm1mem, hnr⟩ := List.mem_filter.mp hkv
      rcases mem_applyArgs kv an ag M1 hm1mem with hM | hres | hres
      · rcases mem_mergedMap kv E1 M1 np cp hM1 hM with hn | hE
        · cases hnpv : np with
          | none => rw [hnpv] at hn; cases hn
          | some n =>
            rw [hnpv] at hn
            exact (hnp n hnpv).2 kv hn
        · rw [hE1eq] at hE
          rcases mem_overlay kv ch1 _ hE with hc | hsd
          · exact hch ch1 hd1 kv hc
          · rcases mem_seedMap kv _ _ hsd with hres2 | hres2
            · rw [hres2] at hnr; exact absurd hnr (by decide)
            · rw [hres2] at hnr; exact absurd hnr (by decide)
      · rw [hres] at hnr; exact absurd hnr (by decide)
      · rw [hres] at hnr; exact absurd hnr (by decide)
    have hw_name : plookup artifact_name_key s3
        = some ((plookup "artifact_name" (applyArgs an ag M1)).getD "") := by
      rw [hs3]; exact writeRecords_name s _
    have hw_group : plookup artifact_group_key s3
        = (if (plookup "artifact_group" (applyArgs an ag M1)).getD "" = "" then none
           else some ((plookup "artifact_group" (applyArgs an ag M1)).getD "")) := by
      rw [hs3]; exact writeRecords_group s _ hss
    have hw_prov : plookup artifact_provides_key s3
        = (if encodeProvides (applyArgs an ag M1) = ""
           then plookup artifact_provides_key s
           else some (encodeProvides (applyArgs an ag M1))) := by
      rw [hs3]; exact writeRecords_provides s _
    have hg_name : (plookup artifact_name_key s3).getD ""
        = (plookup "artifact_name" (applyArgs an ag M1)).getD "" := by
      rw [hw_name]; rfl
    have hg_group : (plookup artifact_group_key s3).getD ""
        = (plookup "artifact_group" (applyArgs an ag M1)).getD "" := by
      by_cases hgv : (plookup "artifact_group" (applyArgs an ag M1)).getD "" = ""
      · rw [hw_group, if_pos hgv, hgv]; rfl
      · rw [hw_group, if_neg hgv]; rfl
    cases h2 : commitBody s3 an ag np cp Except.ok with
    | error e =>
      rw [hr1, h2]
    | ok s3' =>
      rw [hr1, h2]
      show s3' = s3
      obtain ⟨E2, M2, hL2, hM2, hnv2, hs3'⟩ := commitBody_ok_cases s3 an ag np cp s3' h2
      obtain ⟨ch2, hd2, hE2eq⟩ := loadProvides_ok_cases s3 E2 hL2
      have hch2s : Psorted ch2 := psorted_decodeProvides _ ch2 hd2
      have hE2s : Psorted E2 := by
        rw [hE2eq]; exact psorted_overlay _ _ (psorted_seedMap _ _)
      have hM2s : Psorted M2 := psorted_mergedMap E2 M2 np cp hE2s hnps hM2
      have hm2s : Psorted (applyArgs an ag M2) := psorted_applyArgs an ag M2 hM2s
      have hE2v : ∀ k, plookup k E2 = ofirst (plookup k ch2)
          (plookup k (seedMap ((plookup "artifact_name" (applyArgs an ag M1)).getD "")
            ((plookup "artifact_group" (applyArgs an ag M1)).getD ""))) := by
        intro k
        rw [hE2eq, hg_name, hg_group, plookup_overlay k ch2 hch2s]
      have hcase : (∀ k, plookup k ch2
            = plookup k ((applyArgs an ag M1).filter (fun kv => nonReservedKey kv.1)))
          ∨ (encodeProvides (applyArgs an ag M1) = "" ∧
             ∀ k, plookup k E1 = ofirst (plookup k ch2)
               (plookup k (seedMap ((plookup artifact_name_key s).getD "")
                 ((plookup artifact_group_key s).getD "")))) := by
        by_cases hb1 : encodeProvides (applyArgs an ag M1) = ""
        · right
          refine ⟨hb1, ?_⟩
          have haps3 : (plookup artifact_provides_key s3).getD ""
              = (plookup artifact_provides_key s).getD "" := by
            rw [hw_prov, if_pos hb1]
          rw [haps3] at hd2
          have hch2 : ch2 = ch1 := (Except.ok.inj (hd2.symm.trans hd1).symm).symm
          intro k
          rw [hE1eq, hch2, plookup_overlay k ch1 hch1s]
        · left
          have haps3 : (plookup artifact_provides_key s3).getD ""
              = encodeProvides (applyArgs an ag M1) := by
            rw [hw_prov, if_neg hb1]
            rfl
          rw [haps3] at hd2
          have hdec : decodeProvides (encodeProvides (applyArgs an ag M1))
              = .ok ((applyArgs an ag M1).filter (fun kv => nonReservedKey kv.1)) := by
            rw [← encodeProvides_nonres (applyArgs an ag M1)]
            exact decodeProvides_encodeProvides _ (psorted_filter _ _ hm1s)
              (fun kv hkv => (List.mem_filter.mp hkv).2) hcleanm1
          have hch2 : ch2 = (applyArgs an ag M1).filter (fun kv => nonReservedKey kv.1) :=
            Except.ok.inj (hd2.symm.trans hdec)
          intro k
          rw [hch2]
      obtain ⟨hn, hg, hb⟩ := second_merge_records an ag np cp E1 M1 E2 M2 ch2
        ((plookup artifact_name_key s).getD "") ((plookup artifact_group_key s).getD "")
        hnps hm1s hm2s hM1 hM2 hE2v hnv1 hcase
      rw [hs3', hs3]
      apply writeRecords_eq_self
      · exact psorted_writeRecords s _ hss
      · rw [hn]
        exact writeRecords_name s _
      · rw [hg]
        exact writeRecords_group s _ hss
      · by_cases hb1 : encodeProvides (applyArgs an ag M1) = ""
        · left
          rw [hb, hb1]
        · right
          rw [hb, writeRecords_provides s _, if_neg hb1]

/-- C9: witness for the amended idempotence, on a store with a decodable
clean provides blob, a new-provides mapping and a clears pattern. -/
theorem c9_idempotent_amended_witness :
    (commitArtifactData
        (commitArtifactData [("artifact-name", "old"),
            ("artifact-provides", "\x7b\"a\":\"b\"\x7d")]
          "nm" "" (some [("x", "y")]) (some ["a*"]) Except.ok).1
        "nm" "" (some [("x", "y")]) (some ["a*"]) Except.ok).1
      = (commitArtifactData [("artifact-name", "old"),
            ("artifact-provides", "\x7b\"a\":\"b\"\x7d")]
          "nm" "" (some [("x", "y")]) (some ["a*"]) Except.ok).1 :=
  c9_idempotent_amended [("artifact-name", "old"),
      ("artifact-provides", "\x7b\"a\":\"b\"\x7d")]
    "nm" "" (some [("x", "y")]) (some ["a*"]) (by decide)
    (fun n hn => (Option.some.inj hn) ▸
      (⟨by decide, by decide⟩ :
        Psorted [("x", "y")] ∧
        ∀ kv ∈ [("x", "y")], cleanKey kv.1 = true ∧ okVal kv.2 = true))
    (fun ch hd => by
      have hc : ch = [("a", "b")] :=
        (Except.ok.inj
          ((show decodeProvides ((plookup artifact_provides_key
              [("artifact-name", "old"),
               ("artifact-provides", "\x7b\"a\":\"b\"\x7d")]).getD "")
            = Except.ok [("a", "b")] by decide).symm.trans hd)).symm
      rw [hc]
      decide)

